import Mathlib

/-!
Verification of the `epub-editor` library: a shallow embedding of its document
model (publications, chapters, images, stylesheets), of the build API, of the
serialization and deserialization pipelines (EPUB 3 navigation emitted and
re-parsed with the source's regular-expression scanners), of the safe-unzip
helper, and of the merge pipeline.  JS strings are modelled as `List Char`;
JS `Map` as an insertion-ordered association list; fallible methods return an
`Except` result paired with the post-mutation state (a thrown exception in JS
leaves mutations already performed in place).  External primitives that the
repository assumes available (ZIP/DEFLATE, the XML parse/emit pair `xml2js`,
`uuid`, the system clock) are modelled structurally and are documented at the
point of use.
-/

set_option maxHeartbeats 1600000

namespace Epub

/-- JS strings, modelled as lists of characters. -/
abbrev Str := List Char

/-- Coerce a Lean string literal to the model's string type. -/
def S (s : String) : Str := s.data

instance {e a : Type} [DecidableEq e] [DecidableEq a] : DecidableEq (Except e a) := fun x y =>
  match x, y with
  | .ok v, .ok w =>
    if h : v = w then isTrue (by rw [h]) else isFalse (fun hh => by cases hh; exact h rfl)
  | .error v, .error w =>
    if h : v = w then isTrue (by rw [h]) else isFalse (fun hh => by cases hh; exact h rfl)
  | .ok _, .error _ => isFalse (fun hh => by cases hh)
  | .error _, .ok _ => isFalse (fun hh => by cases hh)

/-- Insertion-ordered map, as a JS `Map`: iteration follows insertion order and
`set` on an existing key updates the value in place. -/
abbrev OMap (α : Type) := List (Str × α)

/-- JS `Map.get`. -/
def omGet {α} (m : OMap α) (k : Str) : Option α :=
  match m with
  | [] => none
  | (k', v) :: rest => if k' == k then some v else omGet rest k

/-- JS `Map.has`. -/
def omHas {α} (m : OMap α) (k : Str) : Bool :=
  match m with
  | [] => false
  | (k', _) :: rest => k' == k || omHas rest k

/-- JS `Map.set`: update in place when the key exists, append otherwise. -/
def omSet {α} (m : OMap α) (k : Str) (v : α) : OMap α :=
  match m with
  | [] => [(k, v)]
  | (k', v') :: rest =>
    if k' == k then (k, v) :: rest else (k', v') :: omSet rest k v

/-- JS `Map.delete`. -/
def omDelete {α} (m : OMap α) (k : Str) : OMap α :=
  m.filter (fun p => !(p.1 == k))

/-- JS `Array.from(map.values())`. -/
def omValues {α} (m : OMap α) : List α := m.map (·.2)

/-- Decimal digit character, as JS number-to-string conversion produces. -/
def digitChar (d : Nat) : Char := Char.ofNat (48 + d)

/-- Structural worker for `natStr`; the fuel always exceeds the number of
digits, so it never runs out. -/
def natStrAux : Nat → Nat → Str
  | 0, _ => []
  | fuel + 1, n =>
    if n < 10 then [digitChar n]
    else natStrAux fuel (n / 10) ++ [digitChar (n % 10)]

/-- Decimal rendering of a natural number, as JS template-literal
interpolation of a non-negative integer produces. -/
def natStr (n : Nat) : Str := natStrAux (n + 1) n

/-- Case-insensitive character comparison, as a JS regex with the `i` flag
performs on its ASCII literals. -/
def ciChar (a b : Char) : Bool := a.toLower == b.toLower

/-- `ciPref n h`: the needle `n` matches case-insensitively at the start of
`h` (the anchored step of a JS case-insensitive literal search). -/
def ciPref : Str → Str → Bool
  | [], _ => true
  | _ :: _, [] => false
  | a :: n, b :: h => ciChar a b && ciPref n h

/-- Leftmost case-insensitive occurrence search: `findSub n h = some (p, q)`
splits `h` into `p ++ mid ++ q` where `mid` is the first match of `n`.  This is
the positioning step shared by all the source's regex scans. -/
def findSub (n : Str) : Str → Option (Str × Str)
  | [] => if ciPref n [] then some ([], []) else none
  | b :: h =>
    if ciPref n (b :: h) then some ([], (b :: h).drop n.length)
    else (findSub n h).map (fun p => (b :: p.1, p.2))

/-- Whitespace trim, as JS `String.prototype.trim`. -/
def trim (s : Str) : Str :=
  ((s.dropWhile Char.isWhitespace).reverse.dropWhile Char.isWhitespace).reverse

/-- JS `String.prototype.split` on a single separator character. -/
def jsSplit (sep : Char) : Str → List Str
  | [] => [[]]
  | c :: rest =>
    let r := jsSplit sep rest
    if c == sep then [] :: r
    else match r with
      | [] => [[c]]
      | h :: t => (c :: h) :: t

/-- JS `String.prototype.startsWith`. -/
def strStarts (pre s : Str) : Bool := pre.isPrefixOf s

/-- JS `String.prototype.includes` (case-sensitive substring test). -/
def strIncludes (n h : Str) : Bool :=
  ((h.tails).find? (fun t => n.isPrefixOf t)).isSome

end Epub

namespace Epub

/-! ## MIME utilities (`src/utils/mime-types.ts`) -/

/-- Character class `[^a-zA-Z0-9._-]` complement used by `sanitizeFilename`. -/
def keepChar (c : Char) : Bool :=
  (('a' ≤ c && c ≤ 'z') || ('A' ≤ c && c ≤ 'Z') || ('0' ≤ c && c ≤ '9')
    || c == '.' || c == '_' || c == '-')

/-- `sanitizeFilename`.  The first `replaceAll` call passes the global
RegExp `[^a-zA-Z0-9._-]` with flag `g` and succeeds; the second passes the
leading-dot RegExp without the `g` flag, and ES2021
`String.prototype.replaceAll` throws
`TypeError: replaceAll must be called with a global RegExp` whenever its
RegExp argument is not global — so the function throws on every input,
before the dot-stripping and `toLowerCase` steps can run, and its string
result is unreachable. -/
def sanitizeFilename (f : Str) : Except Str Str :=
  let _s1 := f.map (fun c => if keepChar c then c else '-')
  .error (S "TypeError: replaceAll must be called with a global RegExp")

/-- Extension of a filename: `filename.toLowerCase().split('.').pop() || ''`. -/
def extOf (f : Str) : Str :=
  ((jsSplit '.' (f.map Char.toLower)).getLast?).getD []

/-- `isValidImageExtension`. -/
def isValidImageExtension (f : Str) : Bool :=
  [S "jpg", S "jpeg", S "png", S "gif", S "svg", S "webp"].contains (extOf f)

/-- `getMimeType`'s extension table. -/
def mimeTable : List (Str × Str) :=
  [ (S "jpg", S "image/jpeg"), (S "jpeg", S "image/jpeg")
  , (S "png", S "image/png"), (S "gif", S "image/gif")
  , (S "svg", S "image/svg+xml"), (S "webp", S "image/webp")
  , (S "bmp", S "image/bmp"), (S "tif", S "image/tiff"), (S "tiff", S "image/tiff")
  , (S "xhtml", S "application/xhtml+xml"), (S "html", S "application/xhtml+xml")
  , (S "xml", S "application/xml"), (S "css", S "text/css")
  , (S "otf", S "font/otf"), (S "ttf", S "font/ttf")
  , (S "woff", S "font/woff"), (S "woff2", S "font/woff2")
  , (S "mp3", S "audio/mpeg"), (S "ogg", S "audio/ogg"), (S "opus", S "audio/opus")
  , (S "webm", S "video/webm"), (S "mp4", S "video/mp4")
  , (S "js", S "application/javascript"), (S "json", S "application/json")
  , (S "pdf", S "application/pdf"), (S "txt", S "text/plain") ]

/-- `getMimeType`. -/
def getMimeType (f : Str) : Str :=
  (omGet mimeTable (extOf f)).getD (S "application/octet-stream")

/-! ## Document model (`src/base-epub/base-epub.types.ts`) -/

/-- A chapter record.  The source stores `children` as nested chapter objects
aliased with the entries of the id-keyed `chapters` map; the embedding uses the
arena form (children as ids, every read going through the map), which the
spec's design notes (§9) identify as the equivalent reformulation. -/
structure Chapter where
  id : Str
  title : Str
  content : Str
  filename : Str
  parentId : Option Str
  order : Nat
  children : List Str
  headingLevel : Option Nat
  linear : Bool
  fragment : Option Str := none
  sourceChapterId : Option Str := none
deriving Repr, DecidableEq

/-- An image resource; the byte buffer is modelled as a string of bytes. -/
structure ImageResource where
  id : Str
  filename : Str
  data : Str
  mimeType : Str
  alt : Option Str
  isCover : Bool
deriving Repr, DecidableEq

structure StylesheetResource where
  id : Str
  filename : Str
  content : Str
deriving Repr, DecidableEq

/-- Dublin Core metadata.  `subject`/`contributor` may be a single string or a
sequence in the source; the embedding keeps the single-string form, which is
the only one the claims exercise. -/
structure Metadata where
  title : Str
  creator : Str
  language : Option Str := none
  identifier : Option Str := none
  date : Option Str := none
  publisher : Option Str := none
  description : Option Str := none
  subject : Option Str := none
  rights : Option Str := none
  contributor : Option Str := none
deriving Repr, DecidableEq

structure ValidationResult where
  isValid : Bool
  errors : List Str
  warnings : List Str
deriving Repr, DecidableEq

/-- Constructor options (`EPUBOptions`).  `titleExtraction` is referenced by
the parsers (`this.titleExtraction`) but its declaration is not under `src/`;
it is modelled from the spec (§3: ordered preference among HEAD, CONTENT,
NAV). -/
structure EPUBOptions where
  addDefaultStylesheet : Option Bool := none
  ignoreHeadTitle : Option Bool := none
  titleExtraction : Option (List Str) := none
deriving Repr, DecidableEq

structure AddChapterOptions where
  title : Str
  content : Option Str := none
  parentId : Option Str := none
  headingLevel : Option Nat := none
  linear : Option Bool := none
deriving Repr, DecidableEq

structure AddImageOptions where
  filename : Str
  data : Str
  alt : Option Str := none
  isCover : Option Bool := none
deriving Repr, DecidableEq

structure AddStylesheetOptions where
  filename : Str
  content : Str
deriving Repr, DecidableEq

structure ExportOptions where
  validate : Option Bool := none
  compression : Option Nat := none
deriving Repr, DecidableEq

/-- The mutable state of a `BaseEPUBBuilder` instance.  `warnings` models the
`addWarning` accumulator the parsers use (its declaration is not under `src/`;
spec §4.9: non-fatal diagnostics).  `uuidSeed` models the `uuid` external
primitive: each draw yields a string no earlier draw produced. -/
structure EpubState where
  metadata : Metadata
  chapters : OMap Chapter
  images : OMap ImageResource
  stylesheets : OMap StylesheetResource
  rootChapterIds : List Str
  chapterCounter : Nat
  includeDefStyleSheet : Bool
  ignoreHeadTitle : Bool
  titleExtraction : List Str
  warnings : List Str
  uuidSeed : Nat
deriving Repr, DecidableEq

/-- Draw a fresh value from the modelled `uuidV4` generator. -/
def uuidFresh (st : EpubState) : Str × EpubState :=
  (S "uuid-" ++ natStr st.uuidSeed, { st with uuidSeed := st.uuidSeed + 1 })

/-- JS `a || b` on an optional string: empty strings are falsy. -/
def jsOr (o : Option Str) (d : Str) : Str :=
  match o with
  | some s => if s == [] then d else s
  | none => d

/-- `DEFAULT_CSS`.  Modelled from the spec: the `default-styles` module is not
under `src/`; the spec (§3) only requires a built-in CSS resource, whose text
no claim observes. -/
def DEFAULT_CSS : Str := S "body"

/-- The system clock's `new Date().toISOString().split('T')[0]`, modelled as a
fixed day. -/
def todayStr : Str := S "2026-01-01"

/-- `addDefaultStylesheet` (private constructor step). -/
def addDefaultStylesheetOp (st : EpubState) : EpubState :=
  let sheet : StylesheetResource :=
    { id := S "default-style", filename := S "css/styles.css", content := DEFAULT_CSS }
  { st with stylesheets := omSet st.stylesheets (S "default-style") sheet }

/-- The `BaseEPUBBuilder` constructor.  Throws on empty title or creator;
fills `language`, `identifier`, `date` defaults; installs the default
stylesheet unless disabled. -/
def mkBuilder (md : Metadata) (opts : EPUBOptions := {}) (seed : Nat := 0) :
    Except Str EpubState :=
  if md.title = [] then .error (S "Title is required")
  else if md.creator = [] then .error (S "Creator/Author is required")
  else
    let st0 : EpubState :=
      { metadata := md, chapters := [], images := [], stylesheets := []
      , rootChapterIds := [], chapterCounter := 0
      , includeDefStyleSheet := opts.addDefaultStylesheet.getD true
      , ignoreHeadTitle := opts.ignoreHeadTitle.getD false
      , titleExtraction := opts.titleExtraction.getD [S "HEAD", S "CONTENT", S "NAV"]
      , warnings := [], uuidSeed := seed }
    let (ident, st1) :=
      match md.identifier with
      | some i => if i == [] then uuidFresh st0 else (i, st0)
      | none => uuidFresh st0
    let md' : Metadata :=
      { md with
        language := some (jsOr md.language (S "en")),
        identifier := some ident,
        date := some (jsOr md.date todayStr) }
    let st2 := { st1 with metadata := md' }
    .ok (if st2.includeDefStyleSheet then addDefaultStylesheetOp st2 else st2)

/-- `getNextChapterOrder`: `1 + max(existing order, 0)`. -/
def getNextChapterOrder (st : EpubState) : Nat :=
  (st.chapters.foldl (fun m p => max m p.2.order) 0) + 1

/-- `generateChapterId`. -/
def generateChapterId (st : EpubState) : Str × EpubState :=
  let (u, st') := uuidFresh st
  (S "chapter-" ++ u, st')

/-- `generateImageId`. -/
def generateImageId (st : EpubState) : Str × EpubState :=
  let (u, st') := uuidFresh st
  (S "image-" ++ u, st')

/-- `generateStylesheetId`. -/
def generateStylesheetId (st : EpubState) : Str × EpubState :=
  let (u, st') := uuidFresh st
  (S "style-" ++ u, st')

/-- `addChapter`.  Returns the thrown error or the new chapter id, together
with the state as the method leaves it (note the source increments
`chapterCounter` and draws the id before the parent check, so both survive a
thrown unknown-parent error). -/
def addChapter (st : EpubState) (o : AddChapterOptions) :
    (Except Str Str) × EpubState :=
  let (chapterId, st1) := generateChapterId st
  let st2 := { st1 with chapterCounter := st1.chapterCounter + 1 }
  let filename := S "text/chapter-" ++ natStr st2.chapterCounter ++ S ".xhtml"
  let pid : Option Str :=
    match o.parentId with
    | some p => if p == [] then none else some p
    | none => none
  let chapter : Chapter :=
    { id := chapterId, title := o.title, content := o.content.getD []
    , filename := filename, parentId := pid
    , order := getNextChapterOrder st2, children := []
    , headingLevel := o.headingLevel
    , linear := !(o.linear == some false) }
  match pid with
  | some p =>
    match omGet st2.chapters p with
    | none =>
      (.error (S "Parent chapter with ID \"" ++ p ++ S "\" not found"), st2)
    | some parent =>
      let parent' := { parent with children := parent.children ++ [chapterId] }
      let st3 := { st2 with chapters := omSet st2.chapters p parent' }
      (.ok chapterId, { st3 with chapters := omSet st3.chapters chapterId chapter })
  | none =>
    let st3 := { st2 with rootChapterIds := st2.rootChapterIds ++ [chapterId] }
    (.ok chapterId, { st3 with chapters := omSet st3.chapters chapterId chapter })

/-- `setChapterContent`. -/
def setChapterContent (st : EpubState) (chapterId content : Str) :
    (Except Str Unit) × EpubState :=
  match omGet st.chapters chapterId with
  | none => (.error (S "Chapter with ID \"" ++ chapterId ++ S "\" not found"), st)
  | some c =>
    (.ok (), { st with chapters := omSet st.chapters chapterId ({ c with content := content }) })

/-- `appendToChapter`. -/
def appendToChapter (st : EpubState) (chapterId content : Str) :
    (Except Str Unit) × EpubState :=
  match omGet st.chapters chapterId with
  | none => (.error (S "Chapter with ID \"" ++ chapterId ++ S "\" not found"), st)
  | some c =>
    let c' := { c with content := c.content ++ content }
    (.ok (), { st with chapters := omSet st.chapters chapterId c' })

/-- `getChapter`. -/
def getChapter (st : EpubState) (chapterId : Str) : Option Chapter :=
  omGet st.chapters chapterId

/-- `getRootChapters`. -/
def getRootChapters (st : EpubState) : List Chapter :=
  st.rootChapterIds.filterMap (omGet st.chapters)

/-- `getAllChapters`. -/
def getAllChapters (st : EpubState) : List Chapter :=
  omValues st.chapters

/-- `deleteChapterRecursive`, with fuel for the structural recursion over the
object graph (the fuel is always sufficient: each chapter holds at most one
level of children ids and the initial fuel exceeds the map size). -/
def deleteChapterRecursive : Nat → EpubState → Chapter → EpubState
  | 0, st, _ => st
  | fuel + 1, st, c =>
    let st' := c.children.foldl
      (fun acc childId =>
        match omGet acc.chapters childId with
        | some child => deleteChapterRecursive fuel acc child
        | none => acc) st
    { st' with chapters := omDelete st'.chapters c.id }

/-- `deleteChapter`. -/
def deleteChapter (st : EpubState) (chapterId : Str) :
    (Except Str Unit) × EpubState :=
  match omGet st.chapters chapterId with
  | none => (.error (S "Chapter with ID \"" ++ chapterId ++ S "\" not found"), st)
  | some c =>
    let st1 :=
      match c.parentId with
      | some pid =>
        match omGet st.chapters pid with
        | some parent =>
          let parent' := { parent with children := parent.children.filter (fun i => !(i == chapterId)) }
          { st with chapters := omSet st.chapters pid parent' }
        | none => st
      | none =>
        { st with rootChapterIds := st.rootChapterIds.filter (fun i => !(i == chapterId)) }
    (.ok (), deleteChapterRecursive (st1.chapters.length + 1) st1 c)

/-- `addImage`.  The id draw precedes the `sanitizeFilename` call, whose
`TypeError` aborts the method before the image is inserted, so no call ever
adds an image (the insertion branch is kept as the source writes it). -/
def addImage (st : EpubState) (o : AddImageOptions) :
    (Except Str Str) × EpubState :=
  if !isValidImageExtension o.filename then
    (.error (S "Invalid image extension for file \"" ++ o.filename ++ S "\""), st)
  else
    let (imageId, st1) := generateImageId st
    match sanitizeFilename o.filename with
    | .error e => (.error e, st1)
    | .ok sanitized =>
      let filename := S "images/" ++ sanitized
      let image : ImageResource :=
        { id := imageId, filename := filename, data := o.data
        , mimeType := getMimeType o.filename, alt := o.alt
        , isCover := o.isCover.getD false }
      (.ok imageId, { st1 with images := omSet st1.images imageId image })

/-- `addStylesheet`.  The id draw precedes the `sanitizeFilename` call,
whose `TypeError` aborts the method before the stylesheet is inserted, so
no call ever adds a stylesheet (the insertion branch is kept as the source
writes it). -/
def addStylesheet (st : EpubState) (o : AddStylesheetOptions) :
    (Except Str Str) × EpubState :=
  let (styleId, st1) := generateStylesheetId st
  match sanitizeFilename o.filename with
  | .error e => (.error e, st1)
  | .ok sanitized =>
    let filename := S "css/" ++ sanitized
    let sheet : StylesheetResource := { id := styleId, filename := filename, content := o.content }
    (.ok styleId, { st1 with stylesheets := omSet st1.stylesheets styleId sheet })

/-- `getAllStylesheets`. -/
def getAllStylesheets (st : EpubState) : List StylesheetResource :=
  omValues st.stylesheets

/-- `getAllImages`. -/
def getAllImages (st : EpubState) : List ImageResource :=
  omValues st.images

/-- `setMetadata`: shallow merge of the supplied fields. -/
structure PartialMetadata where
  title : Option Str := none
  creator : Option Str := none
  language : Option Str := none
  identifier : Option Str := none
  date : Option Str := none
  publisher : Option Str := none
  description : Option Str := none
  subject : Option Str := none
  rights : Option Str := none
  contributor : Option Str := none
deriving Repr, DecidableEq

def setMetadata (st : EpubState) (p : PartialMetadata) : EpubState :=
  let m := st.metadata
  { st with metadata :=
    { title := p.title.getD m.title, creator := p.creator.getD m.creator
    , language := (p.language.map some).getD m.language
    , identifier := (p.identifier.map some).getD m.identifier
    , date := (p.date.map some).getD m.date
    , publisher := (p.publisher.map some).getD m.publisher
    , description := (p.description.map some).getD m.description
    , subject := (p.subject.map some).getD m.subject
    , rights := (p.rights.map some).getD m.rights
    , contributor := (p.contributor.map some).getD m.contributor } }

/-- `validate`. -/
def validate (st : EpubState) : ValidationResult :=
  let errors0 : List Str :=
    (if st.metadata.title = [] then [S "Title is required"] else [])
    ++ (if st.metadata.creator = [] then [S "Creator/Author is required"] else [])
  let warnings : List Str :=
    if st.chapters.length = 0 then [S "No chapters added to EPUB"] else []
  let parentErrors : List Str :=
    st.chapters.filterMap (fun p =>
      match p.2.parentId with
      | some pid =>
        if omHas st.chapters pid then none
        else some (S "Chapter \"" ++ p.2.title ++ S "\" (" ++ p.1
          ++ S ") references non-existent parent \"" ++ pid ++ S "\"")
      | none => none)
  let errors := errors0 ++ parentErrors
  { isValid := errors.length = 0, errors := errors, warnings := warnings }

end Epub

namespace Epub

/-! ## Merge pipeline (`BaseEPUBBuilder`, merge region, and
`base-epub.merge-utils.ts`) -/

/-- Node `path.basename`. -/
def nodeBasename (p : Str) : Str :=
  ((jsSplit '/' p).getLast?).getD p

/-- Node `path.extname`: the suffix from the last dot of the basename, empty
when there is no dot or the basename starts with its only dot. -/
def nodeExtname (p : Str) : Str :=
  let b := nodeBasename p
  let revTail := b.reverse.takeWhile (fun c => !(c == '.'))
  if revTail.length + 1 < b.length then '.' :: revTail.reverse else []

/-- Node `path.basename(p, ext)`: basename with a matching extension suffix
removed. -/
def nodeBasenameExt (p ext : Str) : Str :=
  let b := nodeBasename p
  if ext ≠ [] ∧ ext.isSuffixOf b then b.take (b.length - ext.length) else b

/-- One token of a compiled `src=...` replacement pattern.  The source builds
its patterns by splicing the raw old path into a regex literal, so a `.` in
the path behaves as the regex any-character (newline excluded); the other
characters occurring in resource filenames are regex-literal. -/
inductive PatTok where
  | lit (c : Char)
  | anyChar
  | quote
deriving Repr, DecidableEq

def tokMatch : PatTok → Char → Bool
  | .lit c', c => c == c'
  | .anyChar, c => !(c == '\n')
  | .quote, c => c == '"' || c == '\''

/-- Compile a path fragment spliced into the regex: `.` becomes any-char. -/
def pathToks (p : Str) : List PatTok :=
  p.map (fun c => if c == '.' then PatTok.anyChar else PatTok.lit c)

def litToks (s : Str) : List PatTok := s.map PatTok.lit

/-- Anchored match of a token pattern, returning the rest of the input. -/
def matchPat : List PatTok → Str → Option Str
  | [], s => some s
  | _ :: _, [] => none
  | t :: ts, c :: s => if tokMatch t c then matchPat ts s else none

theorem matchPat_length_le : ∀ (ts : List PatTok) (s r : Str),
    matchPat ts s = some r → r.length ≤ s.length := by
  intro ts
  induction ts with
  | nil =>
    intro s r h
    simp only [matchPat, Option.some.injEq] at h
    subst h
    exact Nat.le_refl _
  | cons t ts ih =>
    intro s r h
    cases s with
    | nil => simp [matchPat] at h
    | cons c s =>
      simp only [matchPat] at h
      split at h
      · exact Nat.le_succ_of_le (ih s r h)
      · exact Option.noConfusion h

theorem matchPat_cons (t : PatTok) (ts : List PatTok) (c : Char) (s : Str) :
    matchPat (t :: ts) (c :: s) = if tokMatch t c then matchPat ts s else none := rfl

/-- Structural worker for `replaceAllPat`; the fuel always exceeds the input
length, so it never runs out (each step consumes at least one character). -/
def replaceAllPatAux (ts : List PatTok) (repl : Str) : Nat → Str → Str
  | 0, s => s
  | _, [] => []
  | fuel + 1, c :: rest =>
    match ts, matchPat ts (c :: rest) with
    | [], _ => c :: rest
    | _ :: _, some rem => repl ++ replaceAllPatAux ts repl fuel rem
    | _ :: _, none => c :: replaceAllPatAux ts repl fuel rest

/-- `String.prototype.replace` with a global regex: replace every
non-overlapping occurrence, scanning left to right. -/
def replaceAllPat (ts : List PatTok) (repl : Str) (s : Str) : Str :=
  replaceAllPatAux ts repl (s.length + 1) s

structure Replacement where
  pattern : List PatTok
  replacement : Str
deriving Repr, DecidableEq

/-- `getSingleReplacement`: the four `src=...` patterns for one
`(oldPath, newPath)` pair. -/
def getSingleReplacement (oldPath newPath : Str) : List Replacement :=
  let base := nodeBasename oldPath
  let mk (mid : List PatTok) : List PatTok :=
    litToks (S "src=") ++ [PatTok.quote] ++ mid ++ [PatTok.quote]
  let patterns : List (List PatTok) :=
    [ mk (litToks (S "../") ++ pathToks oldPath)
    , mk (pathToks oldPath)
    , mk (litToks (S "../") ++ pathToks base)
    , mk (pathToks base) ]
  let replacement := S "src=\"../" ++ newPath ++ S "\""
  patterns.map (fun p => { pattern := p, replacement := replacement })

/-- `getAllReplacements`. -/
def getAllReplacements (stylesheetMap imageMap : OMap Str) : List Replacement :=
  (stylesheetMap.foldl (fun acc p =>
    acc ++ getSingleReplacement p.1 (S "styles/" ++ p.2)) [])
  ++ (imageMap.foldl (fun acc p =>
    acc ++ getSingleReplacement p.1 (S "images/" ++ p.2)) [])

/-- `copyStyleSheets`.  `hashFn` models the external
`createHash('sha1').update(content).digest('base64')` primitive.  A throw
from `addStylesheet` (see `sanitizeFilename`) escapes the `forEach`, so it
is propagated before the `addedStylesheets` / `stylesheetMap` entries of
that iteration are recorded. -/
def copyStyleSheets (hashFn : Str → Str) (sourceEPUB : EpubState)
    (addedStylesheets : OMap Str) (bookNumber : Nat) (dest : EpubState) :
    (Except Str Unit) × EpubState × OMap Str × OMap Str :=
  let sheets := (getAllStylesheets sourceEPUB).filter
    (fun s => !(s.id == S "default-style"))
  sheets.foldl
    (fun acc sheet =>
      match acc with
      | (.error e, dest, seen, smap) => (.error e, dest, seen, smap)
      | (.ok (), dest, seen, smap) =>
        let contentHash := hashFn sheet.content
        if !(omHas seen contentHash) then
          let uniqueFilename :=
            S "book" ++ natStr bookNumber ++ S "-" ++ nodeBasename sheet.filename
          match addStylesheet dest { filename := uniqueFilename, content := sheet.content } with
          | (.error e, dest') => (.error e, dest', seen, smap)
          | (.ok _, dest') =>
            (.ok (), dest', omSet seen contentHash uniqueFilename,
              omSet smap sheet.filename uniqueFilename)
        else
          (.ok (), dest, seen, omSet smap sheet.filename ((omGet seen contentHash).getD [])))
    (.ok (), dest, addedStylesheets, ([] : OMap Str))

/-- `copyImages`. -/
def copyImages (hashFn : Str → Str) (sourceEPUB : EpubState)
    (addedImages : OMap Str) (bookNumber : Nat) (dest : EpubState) :
    (Except Str Unit) × EpubState × OMap Str × OMap Str :=
  let images := getAllImages sourceEPUB
  images.foldl
    (fun acc image =>
      match acc with
      | (.error e, dest, seen, imap) => (.error e, dest, seen, imap)
      | (.ok (), dest, seen, imap) =>
        let dataHash := hashFn image.data
        if !(omHas seen dataHash) then
          let originalFilename := nodeBasename image.filename
          let ext := nodeExtname originalFilename
          let baseName := nodeBasenameExt originalFilename ext
          let uniqueFilename :=
            S "book" ++ natStr bookNumber ++ S "-" ++ baseName ++ ext
          let opts : AddImageOptions :=
            { filename := uniqueFilename, data := image.data
            , alt := image.alt, isCover := some false }
          match addImage dest opts with
          | (.error e, dest') => (.error e, dest', seen, imap)
          | (.ok _, dest') =>
            (.ok (), dest', omSet seen dataHash uniqueFilename,
              omSet imap image.filename uniqueFilename)
        else
          (.ok (), dest, seen, omSet imap image.filename ((omGet seen dataHash).getD [])))
    (.ok (), dest, addedImages, ([] : OMap Str))

/-- `copyAllChapters`, with fuel for the recursion over the source chapter
graph (the fuel always suffices on states the API produces). -/
def copyAllChapters (sourceEPUB : EpubState) :
    Nat → List Chapter → OMap Str → OMap Str → Str → EpubState →
    (Except Str Nat) × EpubState
  | 0, _, _, _, _, dest => (.ok 0, dest)
  | fuel + 1, chapters, stylesheetMap, imageMap, sectionId, dest =>
    chapters.foldl
      (fun acc chapter =>
        match acc with
        | (.error e, dest) => (.error e, dest)
        | (.ok n, dest) =>
          let allReplacements := getAllReplacements stylesheetMap imageMap
          let updatedContent := allReplacements.foldl
            (fun content r => replaceAllPat r.pattern r.replacement content)
            chapter.content
          let opts : AddChapterOptions :=
            { title := chapter.title
            , content := some updatedContent, parentId := some sectionId
            , headingLevel := chapter.headingLevel
            , linear := some chapter.linear }
          match addChapter dest opts with
          | (.error e, dest') => (.error e, dest')
          | (.ok mergedChapterId, dest') =>
            if chapter.children.length > 0 then
              let childChapters := chapter.children.filterMap (omGet sourceEPUB.chapters)
              match copyAllChapters sourceEPUB fuel childChapters
                  stylesheetMap imageMap mergedChapterId dest' with
              | (.error e, dest'') => (.error e, dest'')
              | (.ok m, dest'') => (.ok (n + 1 + m), dest'')
            else (.ok (n + 1), dest'))
      (.ok 0, dest)

/-- `addEpubAsChapter`: the public merge entry point.  Returns the chapter
count (or the propagated throw), the destination state, and the updated shared
`addedStylesheets` / `addedImages` maps the caller owns. -/
def addEpubAsChapter (hashFn : Str → Str) (dest : EpubState)
    (chapter : AddChapterOptions) (sourceEPUB : EpubState)
    (addedStylesheets addedImages : OMap Str) (bookNumber : Nat) :
    (Except Str Nat) × EpubState × OMap Str × OMap Str :=
  match addChapter dest chapter with
  | (.error e, st) => (.error e, st, addedStylesheets, addedImages)
  | (.ok sectionId, st1) =>
    match copyStyleSheets hashFn sourceEPUB addedStylesheets bookNumber st1 with
    | (.error e, st2, seenS, _) => (.error e, st2, seenS, addedImages)
    | (.ok (), st2, seenS, stylesheetMap) =>
    match copyImages hashFn sourceEPUB addedImages bookNumber st2 with
    | (.error e, st3, seenI, _) => (.error e, st3, seenS, seenI)
    | (.ok (), st3, seenI, imageMap) =>
      let rootChapters := getRootChapters sourceEPUB
      match copyAllChapters sourceEPUB (sourceEPUB.chapters.length + 1)
          rootChapters stylesheetMap imageMap sectionId st3 with
      | (.error e, st4) => (.error e, st4, seenS, seenI)
      | (.ok n, st4) => (.ok n, st4, seenS, seenI)

end Epub

namespace Epub

/-! ## Properties of the occurrence search -/

theorem ciPref_length : ∀ {n h : Str}, ciPref n h = true → n.length ≤ h.length := by
  intro n
  induction n with
  | nil => intro h _; exact Nat.zero_le _
  | cons a n ih =>
    intro h hp
    cases h with
    | nil => simp [ciPref] at hp
    | cons b h =>
      simp only [ciPref, Bool.and_eq_true] at hp
      simpa using Nat.succ_le_succ (ih hp.2)

theorem findSub_decomp : ∀ {n h p q : Str}, findSub n h = some (p, q) →
    ∃ m, h = p ++ m ++ q ∧ m.length = n.length := by
  intro n h
  induction h with
  | nil =>
    intro p q hf
    simp only [findSub] at hf
    split at hf
    · rename_i hp
      cases hf
      refine ⟨[], by simp, ?_⟩
      cases n with
      | nil => rfl
      | cons a n => simp [ciPref] at hp
    · exact Option.noConfusion hf
  | cons b h ih =>
    intro p q hf
    simp only [findSub] at hf
    split at hf
    · rename_i hp
      cases hf
      refine ⟨(b :: h).take n.length, ?_, ?_⟩
      · simp [List.take_append_drop]
      · have := ciPref_length hp
        simp only [List.length_take]
        omega
    · rename_i hp
      cases hq : findSub n h with
      | none => rw [hq] at hf; exact Option.noConfusion hf
      | some pr =>
        rw [hq] at hf
        obtain ⟨p', q'⟩ := pr
        simp only [Option.map_some', Option.some.injEq, Prod.mk.injEq] at hf
        obtain ⟨m, hm, hl⟩ := ih hq
        obtain ⟨hp1, hq1⟩ := hf
        subst hp1; subst hq1
        exact ⟨m, by simp [hm], hl⟩

theorem findSub_length {n h p q : Str} (hf : findSub n h = some (p, q)) :
    p.length + n.length + q.length = h.length := by
  obtain ⟨m, hm, hl⟩ := findSub_decomp hf
  subst hm
  simp [hl]
  omega

theorem findSub_first : ∀ {n h p q : Str}, findSub n h = some (p, q) →
    ∀ i < p.length, ciPref n (h.drop i) = false := by
  intro n h
  induction h with
  | nil =>
    intro p q hf i hi
    simp only [findSub] at hf
    split at hf
    · cases hf; simp at hi
    · exact Option.noConfusion hf
  | cons b h ih =>
    intro p q hf i hi
    simp only [findSub] at hf
    split at hf
    · cases hf; simp at hi
    · rename_i hp
      cases hq : findSub n h with
      | none => rw [hq] at hf; exact Option.noConfusion hf
      | some pr =>
        rw [hq] at hf
        obtain ⟨p', q'⟩ := pr
        simp only [Option.map_some', Option.some.injEq, Prod.mk.injEq] at hf
        obtain ⟨hp1, hq1⟩ := hf
        subst hp1; subst hq1
        cases i with
        | zero => simpa using Bool.of_not_eq_true hp
        | succ j =>
          simp only [List.length_cons, Nat.succ_lt_succ_iff] at hi
          simpa using ih hq j hi

theorem findSub_none : ∀ {n h : Str}, findSub n h = none →
    ∀ i, ciPref n (h.drop i) = false := by
  intro n h
  induction h with
  | nil =>
    intro hf i
    simp only [findSub] at hf
    split at hf
    · exact Option.noConfusion hf
    · rename_i hp
      simpa [List.drop_nil] using Bool.of_not_eq_true hp
  | cons b h ih =>
    intro hf i
    simp only [findSub] at hf
    split at hf
    · exact Option.noConfusion hf
    · rename_i hp
      cases hq : findSub n h with
      | some pr => rw [hq] at hf; exact Option.noConfusion hf
      | none =>
        cases i with
        | zero => simpa using Bool.of_not_eq_true hp
        | succ j => simpa using ih hq j

end Epub

namespace Epub

/-! ## Archive model and safe unzip (`BaseEPUBBuilder.unzip`) -/

/-- The structured `xml2js` view of an OPF `<metadata>` element: for each
Dublin Core field, the text it carries, if present.  The XML parse/emit pair
is an external primitive the spec places out of scope (§1); emission escapes
text and `xml2js` decodes entities, so their composition on each field is the
identity and the field text is carried structurally. -/
structure OpfMeta where
  title : Option Str := none
  creator : Option Str := none
  language : Option Str := none
  identifier : Option Str := none
  date : Option Str := none
  publisher : Option Str := none
  description : Option Str := none
  subject : Option Str := none
  rights : Option Str := none
  contributor : Option Str := none
deriving Repr, DecidableEq

/-- A manifest `<item>` as `xml2js` presents it (`item.$` attributes). -/
structure OpfItem where
  id : Str
  href : Str
  mediaType : Str
  properties : Option Str := none
deriving Repr, DecidableEq

/-- A spine `<itemref>`; `linear` is the literal attribute text, present in
the emitted XML exactly when the builder's `linear` flag is `false`. -/
structure OpfItemref where
  idref : Str
  linear : Option Str := none
deriving Repr, DecidableEq

structure OpfPackage where
  meta : OpfMeta
  manifest : List OpfItem
  spine : List OpfItemref
deriving Repr, DecidableEq

/-- An NCX navigation point as `xml2js` presents it (v2 parsing). -/
inductive NcxPoint where
  | mk (navLabel : Option Str) (src : Option Str) (children : List NcxPoint)
deriving Repr

mutual

/-- Node count of an NCX tree (computable bound for the traversal fuel). -/
def ncxSize : NcxPoint → Nat
  | .mk _ _ c => 1 + ncxSizeList c

def ncxSizeList : List NcxPoint → Nat
  | [] => 0
  | p :: r => ncxSize p + ncxSizeList r

end

def NcxPoint.navLabel : NcxPoint → Option Str
  | .mk l _ _ => l

def NcxPoint.src : NcxPoint → Option Str
  | .mk _ s _ => s

def NcxPoint.children : NcxPoint → List NcxPoint
  | .mk _ _ c => c

/-- The decompressed content of one archive entry.  Text entries carry their
characters; binary entries carry an abstract byte count; the `container.xml`
and package-document entries are carried structurally through the
assumed-available XML primitive (see `OpfMeta`), as is a v2 NCX document. -/
inductive ZData where
  | str (s : Str)
  | blob (size : Nat)
  | opf (p : OpfPackage)
  | containerX (fullPath : Option Str)
  | ncx (navMap : List NcxPoint)
deriving Repr

structure ZEntry where
  name : Str
  data : ZData
deriving Repr

/-- An opened archive: its entries in order.  Entry names are distinct on
every archive considered (JSZip keys entries by name). -/
abbrev Zip := List ZEntry

/-- `zip.file(name)`. -/
def zipFile (z : Zip) (name : Str) : Option ZEntry :=
  z.find? (fun e => e.name == name)

/-- Uncompressed size of an entry (`content.length`). -/
def zdataSize : ZData → Nat
  | .str s => s.length
  | .blob n => n
  | .opf _ => 0
  | .containerX _ => 0
  | .ncx _ => 0

/-- `file.async('string')`: binary and structural entries read as text are
modelled as empty text (no claim observes them as text). -/
def zdataAsString : ZData → Str
  | .str s => s
  | _ => []

def MAX_FILES : Nat := 10000

def MAX_SIZE : Nat := 1000000000

/-- Sum of the uncompressed entry sizes, as the dead `totalSize` accumulator
of `unzip` would compute it. -/
def totalUncompressedSize (z : Zip) : Nat :=
  (z.map (fun e => zdataSize e.data)).sum

/-- Normalize path segments, as Node's `path.join` does for a join whose
first argument is an absolute path: drop empty and `.` segments, make `..`
pop (and vanish at the root). -/
def normSegs (segs : List Str) : List Str :=
  segs.foldl
    (fun acc seg =>
      if seg = [] ∨ seg = S "." then acc
      else if seg = S ".." then acc.dropLast
      else acc ++ [seg]) []

/-- Node `path.join(a, b)` for an absolute `a` (which `__dirname` is). -/
def nodeJoin (a b : Str) : Str :=
  '/' :: List.intercalate (S "/") (normSegs (jsSplit '/' a ++ jsSplit '/' b))

/-- The module's `__dirname` (environment-dependent; a fixed absolute path). -/
def dirnameStr : Str := S "/app/dist/base-epub"

/-- `path.join(__dirname, 'archive_tmp')`. -/
def targetDirectory : Str := nodeJoin dirnameStr (S "archive_tmp")

/-- The synchronous body of `zip.forEach` in `unzip`: counts entries against
`MAX_FILES` and checks each resolved path.  The `totalSize` ceiling of the
source is checked inside `file.async('nodebuffer').then(...)`: that callback
runs in a detached promise whose exception `unzip` never awaits, so the size
ceiling cannot reject the archive and has no error path here. -/
def unzipLoop : Nat → List ZEntry → Except Str Unit
  | _, [] => .ok ()
  | count, e :: rest =>
    let count' := count + 1
    if count' > MAX_FILES then .error (S "Reached max. number of files")
    else
      let resolvedPath := nodeJoin targetDirectory e.name
      if !(strStarts targetDirectory resolvedPath) then
        .error (S "Path traversal detected")
      else unzipLoop count' rest

/-- `BaseEPUBBuilder.unzip`. -/
def unzip (z : Zip) : Except Str Zip :=
  match unzipLoop 0 z with
  | .ok () => .ok z
  | .error e => .error e

/-- Extraction of the `full-path` attribute of the first rootfile from the
container entry, the composition of `file.async('string')` with `parseXml`
and the optional-chain lookup; a non-structural entry models a container from
which no rootfile path is recoverable. -/
def containerFullPath : ZData → Option Str
  | .containerX fp => fp
  | _ => none

/-- `parseEpubZip`. -/
def parseEpubZip (z : Zip) : Except Str (Zip × OpfPackage × Str) := do
  let zip ← unzip z
  match zipFile zip (S "META-INF/container.xml") with
  | none => .error (S "Invalid EPUB: META-INF/container.xml not found")
  | some containerFile =>
    match containerFullPath containerFile.data with
    | none => .error (S "Invalid EPUB: OPF path not found in container.xml")
    | some opfPath =>
      match zipFile zip opfPath with
      | none => .error (S "Invalid EPUB: OPF file not found at " ++ opfPath)
      | some opfFile =>
        match opfFile.data with
        | .opf p => .ok (zip, p, opfPath)
        | _ => .error (S "Invalid EPUB: OPF file not found at " ++ opfPath)

/-- `extractMetadata`. -/
def extractMetadata (p : OpfPackage) : Metadata :=
  { title := (p.meta.title).getD (S "Untitled")
  , creator := (p.meta.creator).getD (S "Unknown")
  , language := some ((p.meta.language).getD (S "en"))
  , identifier := p.meta.identifier
  , date := p.meta.date
  , publisher := p.meta.publisher
  , description := p.meta.description
  , subject := p.meta.subject
  , rights := p.meta.rights
  , contributor := p.meta.contributor }

/-- `opfPath.substring(0, opfPath.lastIndexOf('/') + 1)`. -/
def opfDirOf (p : Str) : Str :=
  match p.reverse.findIdx? (fun c => c == '/') with
  | some i => p.take (p.length - i)
  | none => []

end Epub

namespace Epub

/-! ## Templates (`epub3.templates.ts`) and EPUB 3 serialization -/

/-- `Array.prototype.join`. -/
def strJoin (sep : Str) : List Str → Str
  | [] => []
  | [x] => x
  | x :: xs => x ++ sep ++ strJoin sep xs

/-- `escapeXml`.  The source chains five `replaceAll` calls; since none of the
replacement texts contains a character a later step replaces, the chain equals
this single character-wise pass. -/
def escChar (c : Char) : Str :=
  if c == '&' then S "&amp;"
  else if c == '<' then S "&lt;"
  else if c == '>' then S "&gt;"
  else if c == '"' then S "&quot;"
  else if c == '\'' then S "&apos;"
  else [c]

def escapeXml (s : Str) : Str := s.flatMap escChar

/-- `chapter.headingLevel || 1` (0 is falsy in JS). -/
def headingLevelOf (c : Chapter) : Nat :=
  match c.headingLevel with
  | some n => if n = 0 then 1 else n
  | none => 1

/-- `generateMimetype`. -/
def generateMimetype : Str := S "application/epub+zip"

/-- The `full-path` the fixed `generateContainer` template carries. -/
def containerEntry : ZEntry :=
  { name := S "META-INF/container.xml", data := .containerX (some (S "EPUB/package.opf")) }

/-- `generateChapterXHTML` (v3). -/
def generateChapterXHTML (c : Chapter) (stylesheetHrefs : List Str) : Str :=
  let styleLinks := strJoin (S "\n") (stylesheetHrefs.map (fun h =>
    S "  <link rel=\"stylesheet\" type=\"text/css\" href=\"" ++ h ++ S "\"/>"))
  let hN := natStr (headingLevelOf c)
  S "<?xml version=\"1.0\" encoding=\"UTF-8\"?>\n<!DOCTYPE html>\n"
  ++ S "<html xmlns=\"http://www.w3.org/1999/xhtml\" xmlns:epub=\"http://www.idpf.org/2007/ops\" xml:lang=\"en\" lang=\"en\">\n"
  ++ S "<head>\n  <meta charset=\"UTF-8\"/>\n  <title>" ++ escapeXml c.title ++ S "</title>\n"
  ++ styleLinks
  ++ S "\n</head>\n<body>\n  <section id=\"" ++ c.id ++ S "\" epub:type=\"chapter\">\n"
  ++ S "    <h" ++ hN ++ S ">" ++ escapeXml c.title ++ S "</h" ++ hN ++ S ">\n    "
  ++ c.content
  ++ S "\n  </section>\n</body>\n</html>"

structure NavAnchor where
  href : Str
  content : Str
  epubType : Option Str := none
  title : Option Str := none
deriving Repr

structure NavSpan where
  content : Str
  title : Option Str := none
deriving Repr

/-- A `NavListItem` of the navigation-document structure. -/
inductive NavItem where
  | mk (a : Option NavAnchor) (span : Option NavSpan) (ol : List NavItem)
deriving Repr

def NavItem.a : NavItem → Option NavAnchor
  | .mk a _ _ => a

def NavItem.ol : NavItem → List NavItem
  | .mk _ _ ol => ol

/-- `'  '.repeat(indent)`. -/
def indentSp (n : Nat) : Str := List.replicate (2 * n) ' '

/-- `generateNavList`, with fuel for the recursion over the item tree (the
fuel always exceeds the tree depth on states the API produces). -/
def generateNavList : Nat → List NavItem → Nat → Str
  | 0, _, _ => []
  | fuel + 1, items, indent =>
    let ind := indentSp indent
    let body := items.foldl
      (fun xml item =>
        let xml := xml ++ S "\n" ++ ind ++ S "  <li>"
        let xml :=
          match item with
          | .mk (some a) _ _ =>
            let epubType := match a.epubType with
              | some t => S " epub:type=\"" ++ t ++ S "\""
              | none => []
            let titleAttr := match a.title with
              | some t => S " title=\"" ++ escapeXml t ++ S "\""
              | none => []
            xml ++ S "\n" ++ ind ++ S "    <a href=\"" ++ escapeXml a.href ++ S "\""
              ++ epubType ++ titleAttr ++ S ">" ++ escapeXml a.content ++ S "</a>"
          | .mk none (some sp) _ =>
            let titleAttr := match sp.title with
              | some t => S " title=\"" ++ escapeXml t ++ S "\""
              | none => []
            xml ++ S "\n" ++ ind ++ S "    <span" ++ titleAttr ++ S ">"
              ++ escapeXml sp.content ++ S "</span>"
          | .mk none none _ => xml
        let xml :=
          match item.ol with
          | [] => xml
          | ol => xml ++ S "\n" ++ generateNavList fuel ol (indent + 2)
        xml ++ S "\n" ++ ind ++ S "  </li>")
      (ind ++ S "<ol>")
    body ++ S "\n" ++ ind ++ S "</ol>"

/-- `generateNavElement` for the toc nav the builder produces. -/
def generateTocNavElement (fuel : Nat) (items : List NavItem) : Str :=
  S "  <nav epub:type=\"toc\">"
  ++ S "\n    <h1 id=\"toc-heading\">" ++ escapeXml (S "Table of Contents") ++ S "</h1>"
  ++ S "\n" ++ generateNavList fuel items 2
  ++ S "\n  </nav>"

/-- `generateNavigationDocument` for the document the builder produces: a toc
nav only (`pageList`, `landmarks` and custom navs are never populated by
`EPUB3Builder.generateNavigationDocument`). -/
def generateNavigationDocumentStr (fuel : Nat) (lang : Str) (items : List NavItem)
    (stylesheetHrefs : List Str) : Str :=
  let styleLinks := strJoin (S "\n") (stylesheetHrefs.map (fun h =>
    S "  <link rel=\"stylesheet\" type=\"text/css\" href=\"" ++ h ++ S "\"/>"))
  S "<?xml version=\"1.0\" encoding=\"UTF-8\"?>\n<!DOCTYPE html>\n"
  ++ S "<html xmlns=\"http://www.w3.org/1999/xhtml\" xmlns:epub=\"http://www.idpf.org/2007/ops\" xml:lang=\""
  ++ lang ++ S "\" lang=\"" ++ lang ++ S "\">\n"
  ++ S "<head>\n  <meta charset=\"UTF-8\"/>\n  <title>" ++ escapeXml (S "Navigation") ++ S "</title>\n"
  ++ styleLinks
  ++ S "\n</head>\n<body>\n"
  ++ generateTocNavElement fuel items
  ++ S "\n</body>\n</html>"

/-- `chapterToNavItem`, with fuel for the recursion over the chapter tree. -/
def chapterToNavItem (st : EpubState) : Nat → Chapter → NavItem
  | 0, c => .mk (some { href := c.filename, content := c.title }) none []
  | fuel + 1, c =>
    let children := c.children.filterMap (omGet st.chapters)
    .mk (some { href := c.filename, content := c.title }) none
      (if children.length > 0 then children.map (chapterToNavItem st fuel) else [])

/-- `generateTocItems`. -/
def generateTocItems (st : EpubState) : List NavItem :=
  (st.rootChapterIds.filterMap (omGet st.chapters)).map
    (chapterToNavItem st (st.chapters.length + 1))

/-- Stable insertion of one element: keeps existing elements that compare
`le` to `x` before `x`. -/
def insertSorted {α} (le : α → α → Bool) (x : α) : List α → List α
  | [] => [x]
  | y :: ys => if le y x then y :: insertSorted le x ys else x :: y :: ys

/-- Stable sort by a boolean comparator, as JS `Array.prototype.sort` (stable
since ES2019) behaves for a consistent comparator. -/
def stableSort {α} (le : α → α → Bool) : List α → List α
  | [] => []
  | x :: xs => insertSorted le x (stableSort le xs)

/-- The state's language as the templates read it (`metadata.language || 'en'`). -/
def langOf (st : EpubState) : Str := jsOr st.metadata.language (S "en")

/-- The structural content of `generateOPF` applied to
`generatePackageDocument`'s manifest and spine: metadata text fields carried
through the XML emit/parse pair (empty optional fields are falsy in the
template and are not emitted). -/
def truthy (o : Option Str) : Option Str :=
  match o with
  | some s => if s == [] then none else some s
  | none => none

def generatePackageDocumentX (st : EpubState) : OpfPackage :=
  let manifestChapters : List OpfItem := st.chapters.map (fun p =>
    { id := p.2.id, href := p.2.filename, mediaType := S "application/xhtml+xml" })
  let manifestStylesheets : List OpfItem := st.stylesheets.map (fun p =>
    { id := p.2.id, href := p.2.filename, mediaType := S "text/css" })
  let manifestImages : List OpfItem := st.images.map (fun p =>
    { id := p.2.id, href := p.2.filename, mediaType := p.2.mimeType
    , properties := if p.2.isCover then some (S "cover-image") else none })
  let spineItems : List OpfItemref := st.chapters.map (fun p =>
    { idref := p.2.id, linear := if p.2.linear then none else some (S "no") })
  let orderOf : Str → Nat := fun idref =>
    match omGet st.chapters idref with
    | some c => c.order
    | none => 0
  let spineSorted := stableSort (fun a b => orderOf a.idref ≤ orderOf b.idref) spineItems
  { meta :=
      { title := some st.metadata.title
      , creator := some st.metadata.creator
      , language := some (langOf st)
      , identifier := some (jsOr st.metadata.identifier (S "uuid-export"))
      , date := some (jsOr st.metadata.date todayStr)
      , publisher := truthy st.metadata.publisher
      , description := truthy st.metadata.description
      , subject := truthy st.metadata.subject
      , rights := truthy st.metadata.rights
      , contributor := truthy st.metadata.contributor }
  , manifest :=
      ({ id := S "nav", href := S "nav.xhtml"
       , mediaType := S "application/xhtml+xml", properties := some (S "nav") } : OpfItem)
      :: (manifestChapters ++ manifestStylesheets ++ manifestImages)
  , spine := spineSorted }

/-- `EPUB3Builder.export`: the validation gate, then the archive, whose
entries appear in the order the source writes them.  The DEFLATE compression
level only affects the byte stream, not the entry contents the model carries. -/
def exportEpub3 (st : EpubState) (options : ExportOptions := {}) : Except Str Zip :=
  if !(options.validate == some false) then
    let validation := validate st
    if !validation.isValid then
      .error (S "EPUB validation failed:\n" ++ strJoin (S "\n") validation.errors)
    else .ok (buildZip3 st)
  else .ok (buildZip3 st)
where
  buildZip3 (st : EpubState) : Zip :=
    let stylesheetHrefs := (omValues st.stylesheets).map (fun s => S "../" ++ s.filename)
    let fuel := st.chapters.length + 1
    let navXhtml := generateNavigationDocumentStr fuel (langOf st)
      (generateTocItems st) stylesheetHrefs
    ({ name := S "mimetype", data := .str generateMimetype } : ZEntry)
    :: containerEntry
    :: ((omValues st.stylesheets).map (fun s =>
          ({ name := S "EPUB/" ++ s.filename, data := .str s.content } : ZEntry)))
    ++ ((omValues st.chapters).map (fun c =>
          ({ name := S "EPUB/" ++ c.filename
           , data := .str (generateChapterXHTML c stylesheetHrefs) } : ZEntry)))
    ++ ((omValues st.images).map (fun i =>
          ({ name := S "EPUB/" ++ i.filename, data := .str i.data } : ZEntry)))
    ++ [ ({ name := S "EPUB/nav.xhtml", data := .str navXhtml } : ZEntry)
       , ({ name := S "EPUB/package.opf", data := .opf (generatePackageDocumentX st) } : ZEntry) ]

end Epub

namespace Epub

/-! ## The source's regex scans over markup, as string functions -/

theorem findSub_rest_lt {n h p q : Str} (hf : findSub n h = some (p, q))
    (hn : n ≠ []) : q.length < h.length := by
  have := findSub_length hf
  have : 1 ≤ n.length := by
    cases n with
    | nil => exact absurd rfl hn
    | cons a n => simp
  omega

theorem takeWhile_len_le (p : Char → Bool) : ∀ l : Str, (l.takeWhile p).length ≤ l.length := by
  intro l
  induction l with
  | nil => simp
  | cons c l ih =>
    simp only [List.takeWhile]
    cases p c with
    | true => simpa using Nat.succ_le_succ ih
    | false => simp

/-- `tagScan tag close s` mirrors a lazy element regex
`<tag[^>]*>([\s\S]*?)close` (case-insensitive): position at the first
occurrence of `<tag`, take the attribute run up to the first `>`, then capture
lazily up to the first occurrence of `close`; the pair returned is the capture
and the text after `close`.  When this leftmost candidate lacks a `>` or a
following `close`, the regex engine's later candidates fail for the same
reason (both would have to occur even further right), so the scan reports no
match, as the engine does. -/
def tagScan (tag close : Str) (s : Str) : Option (Str × Str) :=
  match findSub ('<' :: tag) s with
  | none => none
  | some (_, rest) =>
    let attrs := rest.takeWhile (fun c => !(c == '>'))
    if attrs.length = rest.length then none
    else
      let after := rest.drop (attrs.length + 1)
      match findSub close after with
      | some (cap, rest') => some (cap, rest')
      | none => none

theorem tagScan_lt {tag close s cap rest : Str} (hclose : close ≠ [])
    (h : tagScan tag close s = some (cap, rest)) :
    cap.length + rest.length < s.length := by
  unfold tagScan at h
  cases hf : findSub ('<' :: tag) s with
  | none => rw [hf] at h; exact Option.noConfusion h
  | some pr =>
    rw [hf] at h
    obtain ⟨p0, rest0⟩ := pr
    simp only at h
    split at h
    · exact Option.noConfusion h
    · rename_i hlen
      cases hg : findSub close (rest0.drop ((rest0.takeWhile (fun c => !(c == '>'))).length + 1)) with
      | none => rw [hg] at h; exact Option.noConfusion h
      | some pr2 =>
        rw [hg] at h
        obtain ⟨cap', rest''⟩ := pr2
        simp only [Option.some.injEq, Prod.mk.injEq] at h
        obtain ⟨hc, hr⟩ := h
        subst hc; subst hr
        have l1 := findSub_length hf
        have l2 := findSub_length hg
        have l3 : (rest0.drop ((rest0.takeWhile (fun c => !(c == '>'))).length + 1)).length
            = rest0.length - ((rest0.takeWhile (fun c => !(c == '>'))).length + 1) := by
          simp [List.length_drop]
        have l4 : (rest0.takeWhile (fun c => !(c == '>'))).length ≤ rest0.length :=
          takeWhile_len_le _ _
        have l5 : 1 ≤ close.length := by
          cases close with
          | nil => exact absurd rfl hclose
          | cons a n => simp
        simp only [List.length_cons] at l1
        omega

/-- JS truthiness of an optional string field. -/
def optTruthy (o : Option Str) : Bool :=
  match o with
  | some s => !(s == [])
  | none => false

/-- `addWarning` (spec §4.9: warnings are accumulated diagnostics). -/
def addWarning (st : EpubState) (w : Str) : EpubState :=
  { st with warnings := st.warnings ++ [w] }

/-- Structural worker for `stripTags` (the fuel always exceeds the input
length). -/
def stripTagsAux : Nat → Str → Str
  | 0, s => s
  | _, [] => []
  | fuel + 1, c :: rest =>
    if c = '<' then
      let inner := rest.takeWhile (fun d => !(d == '>'))
      if inner.length = rest.length then c :: stripTagsAux fuel rest
      else if inner = [] then c :: stripTagsAux fuel rest
      else stripTagsAux fuel (rest.drop (inner.length + 1))
    else c :: stripTagsAux fuel rest

/-- The label cleanup `labelHtml.replace(/<[^>]+>/g, '')`: drop every complete
`<...>` group, keep a `<` with no following `>` or with an empty body. -/
def stripTags (s : Str) : Str := stripTagsAux (s.length + 1) s

/-- `/<tag[^>]*>([^<]+)<\/tag>/i` — the `<title>`, `<h1>`, `<h2>` text
extraction shape: the greedy `[^<]+` capture must run to the character before
the next `<`, which must open the close tag; a failed candidate makes the
engine retry from the following `<tag` occurrence. -/
def simpleTagTextAux (tag : Str) : Nat → Str → Option Str
  | 0, _ => none
  | fuel + 1, s =>
    match findSub ('<' :: tag) s with
    | none => none
    | some (_, rest) =>
      let attrs := rest.takeWhile (fun c => !(c == '>'))
      if attrs.length = rest.length then none
      else
        let after := rest.drop (attrs.length + 1)
        let cap := after.takeWhile (fun c => !(c == '<'))
        if cap = [] then simpleTagTextAux tag fuel rest
        else if ciPref ('<' :: '/' :: tag ++ [ '>' ]) (after.drop cap.length) then
          some (trim cap)
        else simpleTagTextAux tag fuel rest

def simpleTagText (tag : Str) (s : Str) : Option Str :=
  simpleTagTextAux tag (s.length + 1) s

def digit16 (c : Char) : Bool := '1' ≤ c && c ≤ '6'

/-- The close step of `/<h[1-6][^>]*>.*?<\/h[1-6]>/i`: first `</h[1-6]>`
occurrence, returning the text before it and the text after it. -/
def findHeadingCloseAux : Nat → Str → Option (Str × Str)
  | 0, _ => none
  | fuel + 1, s =>
    match findSub (S "</h") s with
    | none => none
    | some (pre, rest) =>
      match rest with
      | d :: '>' :: rest' =>
        if digit16 d then some (pre, rest')
        else
          match findHeadingCloseAux fuel rest with
          | some (p2, a2) => some (pre ++ S "</h" ++ p2, a2)
          | none => none
      | _ =>
        match findHeadingCloseAux fuel rest with
        | some (p2, a2) => some (pre ++ S "</h" ++ p2, a2)
        | none => none

def findHeadingClose (s : Str) : Option (Str × Str) :=
  findHeadingCloseAux (s.length + 1) s

/-- One candidate attempt plus retry for
`content.replace(/<h[1-6][^>]*>.*?<\/h[1-6]>/i, '')`; `.*?` cannot cross a
newline, so a candidate whose first close lies beyond a newline fails. -/
def stripHeadingScan : Nat → Str → Option (Str × Str)
  | 0, _ => none
  | fuel + 1, s =>
    match findSub (S "<h") s with
    | none => none
    | some (pre, rest) =>
      let attempt : Option Str :=
        match rest with
        | d :: rest' =>
          if digit16 d then
            let attrs := rest'.takeWhile (fun c => !(c == '>'))
            if attrs.length = rest'.length then none
            else
              let after := rest'.drop (attrs.length + 1)
              match findHeadingClose after with
              | some (between, after') =>
                if between.contains '\n' then none else some after'
              | none => none
          else none
        | [] => none
      match attempt with
      | some after' => some (pre, after')
      | none =>
        match stripHeadingScan fuel rest with
        | some (p2, a2) => some (pre ++ S "<h" ++ p2, a2)
        | none => none

def stripHeadingAux (s : Str) : Option (Str × Str) :=
  stripHeadingScan (s.length + 1) s

/-- `inner.replace(/<h[1-6][^>]*>.*?<\/h[1-6]>/i, '')` (first occurrence only:
no `g` flag). -/
def stripFirstHeading (s : Str) : Str :=
  match stripHeadingAux s with
  | some (before, after) => before ++ after
  | none => s

/-- `EPUB3Builder.extractBodyFromXHTML`. -/
def extractBodyFromXHTML3 (xhtml : Str) : Str :=
  match tagScan (S "body") (S "</body>") xhtml with
  | some (content, _) =>
    match tagScan (S "section") (S "</section>") content with
    | some (inner, _) => trim (stripFirstHeading inner)
    | none => trim content
  | none => []

end Epub

namespace Epub

/-! ## EPUB 3 deserialization (`EPUB3Builder`, nav parsing) -/

/-- `/<nav[^>]+epub:type=["']toc["'][^>]*>/i` attribute check: the non-`>`
attribute run must hold `epub:type=` (not immediately after `<nav`), a quote,
`toc`, a quote.  The scan takes the first `epub:type=` occurrence; the
engine's backtracking over further occurrences inside one tag is not needed on
any document the builder emits or the claims exercise. -/
def tocAttrsOk (attrs : Str) : Bool :=
  match findSub (S "epub:type=") attrs with
  | some (pre, rest) =>
    !pre.isEmpty &&
      (match rest with
       | q :: r1 =>
         (q == '"' || q == '\'') && ciPref (S "toc") r1 &&
           (match r1.drop 3 with
            | q2 :: _ => q2 == '"' || q2 == '\''
            | [] => false)
       | [] => false)
  | none => false

/-- The toc-nav scan of `parseNavDocument`, with the engine's retry over
successive `<nav` candidates. -/
def tocScanAux : Nat → Str → Option Str
  | 0, _ => none
  | fuel + 1, s =>
    match findSub (S "<nav") s with
    | none => none
    | some (_, rest) =>
      let attrs := rest.takeWhile (fun c => !(c == '>'))
      if attrs.length = rest.length then none
      else if tocAttrsOk attrs then
        let after := rest.drop (attrs.length + 1)
        match findSub (S "</nav>") after with
        | some (cap, _) => some cap
        | none => tocScanAux fuel rest
      else tocScanAux fuel rest

def tocScan (s : Str) : Option Str := tocScanAux (s.length + 1) s

/-- `/<a[^>]+href=["']([^"']+)["'][^>]*>([\s\S]*?)<\/a>/i`: returns the href
capture and the label markup.  A failed candidate retries from the next `<a`
occurrence; the engine's backtracking over several `href=` occurrences inside
one tag is not needed on any document the builder emits or the claims
exercise. -/
def anchorScanAux : Nat → Str → Option (Str × Str)
  | 0, _ => none
  | fuel + 1, s =>
    match findSub (S "<a") s with
    | none => none
    | some (_, rest) =>
      let attrs := rest.takeWhile (fun c => !(c == '>'))
      let attempt : Option (Str × Str) :=
        match findSub (S "href=") attrs with
        | none => none
        | some (pre1, _) =>
          if pre1.isEmpty then none
          else
            match rest.drop (pre1.length + 5) with
            | q :: r =>
              if q == '"' || q == '\'' then
                let cap := r.takeWhile (fun c => !(c == '"' || c == '\''))
                if cap.isEmpty then none
                else
                  match r.drop cap.length with
                  | q2 :: r2 =>
                    if q2 == '"' || q2 == '\'' then
                      let v := r2.takeWhile (fun c => !(c == '>'))
                      if v.length = r2.length then none
                      else
                        let afterGt := r2.drop (v.length + 1)
                        match findSub (S "</a>") afterGt with
                        | some (label, _) => some (cap, label)
                        | none => none
                    else none
                  | [] => none
              else none
            | [] => none
      match attempt with
      | some res => some res
      | none => anchorScanAux fuel rest

def anchorScan (s : Str) : Option (Str × Str) := anchorScanAux (s.length + 1) s

/-- Truthiness of a chapter's `fragment` field. -/
def fragTruthy (c : Chapter) : Bool :=
  match c.fragment with
  | some f => !(f == [])
  | none => false

structure SpineInfo where
  linear : Bool
  order : Nat
deriving Repr, DecidableEq

structure NavCtx where
  zip : Zip
  manifestMap : OMap OpfItem
  opfDir : Str
  spineMap : OMap SpineInfo

structure TitleInfo where
  title : Option Str := none
  headingLevel : Option Nat := none
  addTitleToContent : Bool := false
deriving Repr, DecidableEq

/-- Modelled from the spec: the two-argument `extractTitleFromXHTML` the
parsers call (returning a `titleInfo`), and the `titleExtraction` preference
it consults, are code of this repository that is not under `src/` (only the
fixed-order one-argument variant is).  Spec §4.6: title extraction follows
`options.title_extraction` ordering over head `<title>` (skipped when
`ignore_head_title` is set), first `<h1>` / first `<h2>` (the CONTENT
source), and the navigation label; the first source in the configured order
that yields a non-empty string supplies the title.  The individual source
readers are the regex extractors of the one-argument variant in `src/`. -/
def titleSourceValue (st : EpubState) (xhtml : Str) (navLabel : Option Str)
    (src : Str) : Option Str :=
  if src == S "HEAD" then
    if st.ignoreHeadTitle then none else simpleTagText (S "title") xhtml
  else if src == S "CONTENT" then
    match simpleTagText (S "h1") xhtml with
    | some t => if t == [] then simpleTagText (S "h2") xhtml else some t
    | none => simpleTagText (S "h2") xhtml
  else if src == S "NAV" then navLabel
  else none

def firstTitleFrom (st : EpubState) (xhtml : Str) (navLabel : Option Str) :
    List Str → Option Str
  | [] => none
  | src :: rest =>
    match titleSourceValue st xhtml navLabel src with
    | some t => if !(t == []) then some t else firstTitleFrom st xhtml navLabel rest
    | none => firstTitleFrom st xhtml navLabel rest

/-- The modelled two-argument `extractTitleFromXHTML` (see
`titleSourceValue`). -/
def extractTitleInfo (st : EpubState) (xhtml : Str) (navLabel : Option Str) :
    TitleInfo :=
  { title := firstTitleFrom st xhtml navLabel st.titleExtraction }

/-- The one-argument `extractTitleFromXHTML` of
`src/base-epub/base-epub.builder.ts` (fixed order: head title unless ignored,
then `<h1>`, then `<h2>`). -/
def extractTitleFromXHTMLSrc (st : EpubState) (xhtml : Str) : Option Str :=
  match (if st.ignoreHeadTitle then none else simpleTagText (S "title") xhtml) with
  | some t => some t
  | none =>
    match simpleTagText (S "h1") xhtml with
    | some t => some t
    | none => simpleTagText (S "h2") xhtml

/-- Overwrite the bookkeeping fields the parser sets after `addChapter`
(`chapter.filename = file; chapter.order = order;` etc.). -/
def setTracking (st : EpubState) (cid : Str) (f : Chapter → Chapter) : EpubState :=
  match omGet st.chapters cid with
  | some c => { st with chapters := omSet st.chapters cid (f c) }
  | none => st

/-- `parseNavListItem`.  The source method ends by recursing into a nested
`<ol>` via `this.parseNavList(...)`; here that pending recursion is returned
as `.ok (some (innerListContent, chapterId))` and performed by the caller
(`parseNavList`), so that the traversal is a single structurally recursive
function the kernel can evaluate.  `.ok none` means the item is finished. -/
def parseNavListItem (ctx : NavCtx) (itemContent : Str)
    (parentId : Option Str) (st : EpubState) (files : List Str) :
    (Except Str (Option (Str × Str))) × EpubState × List Str :=
  match anchorScan itemContent with
  | none => (.ok none, st, files)
  | some (href, labelHtml) =>
    let navLabel0 := trim (stripTags labelHtml)
    let navLabel := if navLabel0 == [] then S "Untitled" else navLabel0
    let parts := jsSplit '#' href
    let file := (parts.head?).getD []
    let fragment : Option Str := parts[1]?
    let files := files ++ [file]
    match (ctx.manifestMap.find? (fun p => p.2.href == file)).map (·.2) with
    | none =>
      (.ok none, addWarning st (S "Navigation entry \"" ++ navLabel
        ++ S "\" references file \"" ++ file ++ S "\" not found in manifest"), files)
    | some manifestItem =>
      let filePath := ctx.opfDir ++ file
      match zipFile ctx.zip filePath with
      | none =>
        (.ok none, addWarning st (S "File \"" ++ file
          ++ S "\" referenced in navigation not found in EPUB"), files)
      | some zf =>
        let spineInfo := omGet ctx.spineMap manifestItem.id
        let st := match spineInfo with
          | some _ => st
          | none => addWarning st (S "Navigation entry \"" ++ navLabel ++ S "\" ("
              ++ file ++ S ") not found in spine, setting linear=false")
        let linear := match spineInfo with
          | some si => si.linear
          | none => false
        let order := match spineInfo with
          | some si => si.order
          | none => 9999
        let stepResult : (Except Str Str) × EpubState :=
          if optTruthy fragment then
            -- fragment branch
            let frag := fragment.getD []
            let existingSource := st.chapters.find?
              (fun p => p.2.filename == file && !(fragTruthy p.2))
            let srcStep : (Except Str Str) × EpubState :=
              match existingSource with
              | some p => (.ok p.1, st)
              | none =>
                let content := zdataAsString zf.data
                let titleInfo := extractTitleInfo st content (some navLabel)
                let opts : AddChapterOptions :=
                  { title := jsOr titleInfo.title navLabel
                  , content := some (extractBodyFromXHTML3 content)
                  , headingLevel := titleInfo.headingLevel
                  , linear := some linear, parentId := parentId }
                match addChapter st opts with
                | (.error e, st') => (.error e, st')
                | (.ok sid, st') =>
                  (.ok sid, setTracking st' sid
                    (fun c => { c with filename := file, order := order }))
            match srcStep with
            | (.error e, st') => (.error e, st')
            | (.ok sourceChapterId, st') =>
              let opts : AddChapterOptions :=
                { title := navLabel, content := some []
                , headingLevel := some 2, linear := some linear, parentId := parentId }
              match addChapter st' opts with
              | (.error e, st'') => (.error e, st'')
              | (.ok chapterId, st'') =>
                (.ok chapterId, setTracking st'' chapterId
                  (fun c => { c with
                    filename := file, fragment := some frag,
                    sourceChapterId := some sourceChapterId, order := order }))
          else
            -- regular chapter without fragment
            let existing := st.chapters.find?
              (fun p => p.2.filename == file && !(fragTruthy p.2))
            match existing with
            | some p =>
              let existingId := p.1
              let c0 := p.2
              let c1 := if st.titleExtraction.contains (S "NAV")
                then { c0 with title := navLabel } else c0
              let st1 := { st with chapters := omSet st.chapters existingId c1 }
              let st2 :=
                if optTruthy parentId && !(c1.parentId == parentId) then
                  let c2 := { c1 with parentId := parentId }
                  let stA := { st1 with chapters := omSet st1.chapters existingId c2 }
                  match parentId with
                  | some pid =>
                    (match omGet stA.chapters pid with
                     | some parent =>
                       if (parent.children.find? (fun i => i == existingId)).isSome
                       then stA
                       else
                         let parent' := { parent with children := parent.children ++ [existingId] }
                         { stA with chapters := omSet stA.chapters pid parent' }
                     | none => stA)
                  | none => stA
                else st1
              (.ok existingId, st2)
            | none =>
              let content := zdataAsString zf.data
              let titleInfo := extractTitleInfo st content (some navLabel)
              let opts : AddChapterOptions :=
                { title := jsOr titleInfo.title navLabel
                , content := some (extractBodyFromXHTML3 content)
                , headingLevel := titleInfo.headingLevel
                , linear := some linear, parentId := parentId }
              match addChapter st opts with
              | (.error e, st') => (.error e, st')
              | (.ok cid, st') =>
                (.ok cid, setTracking st' cid
                  (fun c => { c with filename := file, order := order }))
        match stepResult with
        | (.error e, st') => (.error e, st', files)
        | (.ok chapterId, st') =>
          match tagScan (S "ol") (S "</ol>") itemContent with
          | some (inner, _) => (.ok (some (inner, chapterId)), st', files)
          | none => (.ok none, st', files)

/-- `parseNavList`: the `liPattern` loop, performing pending nested-list
recursions returned by `parseNavListItem`.  Fuel-indexed structural
recursion; every recursive call scans a strictly shorter string (`rest` and
`inner` both come from `tagScan`, which strictly shrinks its input), so the
initial fuel (one more than the scanned text's length) never runs out. -/
def parseNavList (fuel : Nat) (ctx : NavCtx) (listContent : Str)
    (parentId : Option Str) (st : EpubState) (files : List Str) :
    (Except Str Unit) × EpubState × List Str :=
  match fuel with
  | 0 => (.ok (), st, files)
  | fuel + 1 =>
    match tagScan (S "li") (S "</li>") listContent with
    | none => (.ok (), st, files)
    | some (item, rest) =>
      match parseNavListItem ctx item parentId st files with
      | (.error e, st', files') => (.error e, st', files')
      | (.ok none, st', files') => parseNavList fuel ctx rest parentId st' files'
      | (.ok (some (inner, chapterId)), st', files') =>
        match parseNavList fuel ctx inner (some chapterId) st' files' with
        | (.error e, st'', files'') => (.error e, st'', files'')
        | (.ok (), st'', files'') => parseNavList fuel ctx rest parentId st'' files''

end Epub

namespace Epub

/-- `parseNavDocument`. -/
def parseNavDocument (ctx : NavCtx) (navContent : Str) (st : EpubState)
    (files : List Str) : (Except Str Unit) × EpubState × List Str :=
  match tocScan navContent with
  | none => (.ok (), addWarning st (S "No TOC nav element found in nav document"), files)
  | some tocContent =>
    match tagScan (S "ol") (S "</ol>") tocContent with
    | none => (.ok (), addWarning st (S "No ordered list found in TOC nav"), files)
    | some (listContent, _) =>
      parseNavList (listContent.length + 1) ctx listContent none st files

/-- `handleOrphanedChapters`. -/
def handleOrphanedChapters (ctx : NavCtx) (st : EpubState) (files : List Str) :
    (Except Str Unit) × EpubState :=
  ctx.spineMap.foldl
    (fun acc p =>
      match acc with
      | (.error e, st) => (.error e, st)
      | (.ok (), st) =>
        let idref := p.1
        let spineInfo := p.2
        match omGet ctx.manifestMap idref with
        | none => (.ok (), st)
        | some mi =>
          if !(mi.mediaType == S "application/xhtml+xml") then (.ok (), st)
          else
            let href := mi.href
            if (match mi.properties with
                | some pr => strIncludes (S "nav") pr
                | none => false) then (.ok (), st)
            else if files.contains href then (.ok (), st)
            else
              match zipFile ctx.zip (ctx.opfDir ++ href) with
              | none =>
                (.ok (), addWarning st (S "Orphaned chapter file \"" ++ href
                  ++ S "\" not found in EPUB"))
              | some f =>
                let st := addWarning st (S "Chapter \"" ++ href
                  ++ S "\" found in spine but not in navigation, adding as root chapter")
                let content := zdataAsString f.data
                let titleInfo := extractTitleInfo st content none
                let opts : AddChapterOptions :=
                  { title := jsOr titleInfo.title (S "Orphaned: " ++ href)
                  , content := some (extractBodyFromXHTML3 content)
                  , headingLevel := titleInfo.headingLevel
                  , linear := some spineInfo.linear }
                match addChapter st opts with
                | (.error e, st') => (.error e, st')
                | (.ok cid, st') =>
                  (.ok (), setTracking st' cid
                    (fun c => { c with filename := href, order := spineInfo.order })))
    (.ok (), st)

/-- `extractChaptersFromSpine` (v3 fallback). -/
def extractChaptersFromSpine (ctx : NavCtx) (st : EpubState) :
    (Except Str Unit) × EpubState :=
  ctx.spineMap.foldl
    (fun acc p =>
      match acc with
      | (.error e, st) => (.error e, st)
      | (.ok (), st) =>
        let idref := p.1
        let spineInfo := p.2
        match omGet ctx.manifestMap idref with
        | none => (.ok (), st)
        | some mi =>
          if !(mi.mediaType == S "application/xhtml+xml") then (.ok (), st)
          else
            let href := mi.href
            if (match mi.properties with
                | some pr => strIncludes (S "nav") pr
                | none => false) then (.ok (), st)
            else
              match zipFile ctx.zip (ctx.opfDir ++ href) with
              | none => (.ok (), st)
              | some f =>
                let content := zdataAsString f.data
                let titleInfo := extractTitleInfo st content none
                let opts : AddChapterOptions :=
                  { title := jsOr titleInfo.title
                      (S "Chapter " ++ natStr (st.chapters.length + 1))
                  , content := some (extractBodyFromXHTML3 content)
                  , headingLevel := titleInfo.headingLevel
                  , linear := some spineInfo.linear }
                match addChapter st opts with
                | (.error e, st') => (.error e, st')
                | (.ok cid, st') =>
                  (.ok (), setTracking st' cid
                    (fun c => { c with filename := href, order := spineInfo.order })))
    (.ok (), st)

/-- `extractImages` (shared base-class helper). -/
def extractImagesOp (st : EpubState) (zip : Zip) (manifest : List OpfItem)
    (opfDir : Str) : (Except Str Unit) × EpubState :=
  manifest.foldl
    (fun acc item =>
      match acc with
      | (.error e, st) => (.error e, st)
      | (.ok (), st) =>
        if strStarts (S "image/") item.mediaType then
          let href := item.href
          match zipFile zip (opfDir ++ href) with
          | some f =>
            let data := zdataAsString f.data
            let filename := jsOr ((jsSplit '/' href).getLast?) (S "image")
            let opts : AddImageOptions :=
              { filename := filename, data := data
              , isCover := item.properties.map (fun pr => strIncludes (S "cover-image") pr) }
            match addImage st opts with
            | (.error e, st') => (.error e, st')
            | (.ok _, st') => (.ok (), st')
          | none => (.ok (), st)
        else (.ok (), st))
    (.ok (), st)

/-- Build the `manifestMap` (id-keyed) and `spineMap` (idref-keyed, spine
index as order, `linear !== 'no'`). -/
def buildManifestMap (manifest : List OpfItem) : OMap OpfItem :=
  manifest.foldl (fun m item => omSet m item.id item) []

def buildSpineMap (spine : List OpfItemref) : OMap SpineInfo :=
  spine.enum.foldl
    (fun m p => omSet m p.2.idref
      { linear := !(p.2.linear == some (S "no")), order := p.1 }) []

/-- `EPUB3Builder.extractChapters`: nav-first, with the caught-warning
fallback to spine-only extraction. -/
def extractChapters3 (st : EpubState) (zip : Zip) (manifest : List OpfItem)
    (opfDir : Str) (spine : List OpfItemref) : (Except Str Unit) × EpubState :=
  let ctx : NavCtx :=
    { zip := zip, manifestMap := buildManifestMap manifest
    , opfDir := opfDir, spineMap := buildSpineMap spine }
  match manifest.find? (fun item =>
      match item.properties with
      | some pr => strIncludes (S "nav") pr
      | none => false) with
  | none =>
    let st := addWarning st
      (S "No nav document found in manifest, falling back to spine-only parsing")
    extractChaptersFromSpine ctx st
  | some navItem =>
    let navPath := opfDir ++ navItem.href
    match zipFile zip navPath with
    | none =>
      let st := addWarning st (S "Nav document not found at " ++ navPath
        ++ S ", falling back to spine-only parsing")
      extractChaptersFromSpine ctx st
    | some navFile =>
      let navContent := zdataAsString navFile.data
      match parseNavDocument ctx navContent st [] with
      | (.ok (), st1, files) =>
        (match handleOrphanedChapters ctx st1 files with
         | (.ok (), st2) => (.ok (), st2)
         | (.error e, st2) =>
           let st3 := addWarning st2 (S "Failed to parse nav document: " ++ e)
           extractChaptersFromSpine ctx st3)
      | (.error e, st1, _) =>
        let st2 := addWarning st1 (S "Failed to parse nav document: " ++ e)
        extractChaptersFromSpine ctx st2

/-- `extractResources` (v3 instantiation). -/
def extractResources3 (st : EpubState) (zip : Zip) (p : OpfPackage)
    (opfPath : Str) : (Except Str Unit) × EpubState :=
  let opfDir := opfDirOf opfPath
  match extractChapters3 st zip p.manifest opfDir p.spine with
  | (.error e, st') => (.error e, st')
  | (.ok (), st') => extractImagesOp st' zip p.manifest opfDir

/-- `EPUB3Builder.parseBuffer`. -/
def parseBuffer3 (buffer : Zip) (options : EPUBOptions := {}) :
    Except Str EpubState :=
  let run : Except Str EpubState :=
    match parseEpubZip buffer with
    | .error e => .error e
    | .ok (zip, opfData, opfPath) =>
      let metadata := extractMetadata opfData
      match mkBuilder metadata options with
      | .error e => .error e
      | .ok epub =>
        match extractResources3 epub zip opfData opfPath with
        | (.error e, _) => .error e
        | (.ok (), st) => .ok st
  match run with
  | .ok st => .ok st
  | .error e => .error (S "Failed to parse EPUB buffer: " ++ e)

end Epub

namespace Epub

/-! ## EPUB 2 deserialization (`EPUB2Builder`, NCX parsing) -/

/-- `EPUB2Builder.extractBodyFromXHTML` (first `<div>` instead of
`<section>`). -/
def extractBodyFromXHTML2 (xhtml : Str) : Str :=
  match tagScan (S "body") (S "</body>") xhtml with
  | some (content, _) =>
    match tagScan (S "div") (S "</div>") content with
    | some (inner, _) => trim (stripFirstHeading inner)
    | none => trim content
  | none => []

/-- `processNavPoint` (v2): one NCX navigation point.  The source method
ends by recursing into `navPoint.children` with the resulting chapter as
parent; here that pending recursion is returned as `.ok (some chapterId)`
and performed by the caller (`processNavPoints`), so that the traversal is
a single structurally recursive function the kernel can evaluate. -/
def processNavPoint (ctx : NavCtx) (np : NcxPoint)
    (parentId : Option Str) (st : EpubState) (files : List Str) :
    (Except Str (Option Str)) × EpubState × List Str :=
  let navLabel := jsOr np.navLabel (S "Untitled")
  if !(optTruthy np.src) then
    (.ok none, addWarning st (S "Navigation point \"" ++ navLabel
      ++ S "\" has no content source"), files)
  else
    let contentSrc := np.src.getD []
    let parts := jsSplit '#' contentSrc
    let href := (parts.head?).getD []
    let fragment : Option Str := parts[1]?
    let files := files ++ [href]
    match (ctx.manifestMap.find? (fun p => p.2.href == href)).map (·.2) with
    | none =>
      (.ok none, addWarning st (S "Navigation point \"" ++ navLabel
        ++ S "\" references file \"" ++ href ++ S "\" not found in manifest"), files)
    | some manifestItem =>
      match zipFile ctx.zip (ctx.opfDir ++ href) with
      | none =>
        (.ok none, addWarning st (S "File \"" ++ href
          ++ S "\" referenced in navigation not found in EPUB"), files)
      | some zf =>
        let spineInfo := omGet ctx.spineMap manifestItem.id
        let st := match spineInfo with
          | some _ => st
          | none => addWarning st (S "Navigation entry \"" ++ navLabel ++ S "\" ("
              ++ href ++ S ") not found in spine, setting linear=false")
        let linear := match spineInfo with
          | some si => si.linear
          | none => false
        let order := match spineInfo with
          | some si => si.order
          | none => 9999
        let stepResult : (Except Str Str) × EpubState :=
          if optTruthy fragment then
            let frag := fragment.getD []
            let existingSource := st.chapters.find?
              (fun p => p.2.filename == href && !(fragTruthy p.2))
            let srcStep : (Except Str Str) × EpubState :=
              match existingSource with
              | some p => (.ok p.1, st)
              | none =>
                let content := zdataAsString zf.data
                let titleInfo := extractTitleInfo st content (some navLabel)
                let opts : AddChapterOptions :=
                  { title := jsOr titleInfo.title navLabel
                  , content := some (extractBodyFromXHTML2 content)
                  , headingLevel := titleInfo.headingLevel
                  , linear := some linear, parentId := parentId }
                match addChapter st opts with
                | (.error e, st') => (.error e, st')
                | (.ok sid, st') =>
                  (.ok sid, setTracking st' sid
                    (fun c => { c with filename := href, order := order }))
            match srcStep with
            | (.error e, st') => (.error e, st')
            | (.ok sourceChapterId, st') =>
              let opts : AddChapterOptions :=
                { title := navLabel, content := some []
                , headingLevel := some 2, linear := some linear, parentId := parentId }
              match addChapter st' opts with
              | (.error e, st'') => (.error e, st'')
              | (.ok chapterId, st'') =>
                (.ok chapterId, setTracking st'' chapterId
                  (fun c => { c with
                    filename := href, fragment := some frag,
                    sourceChapterId := some sourceChapterId, order := order }))
          else
            let existing := st.chapters.find?
              (fun p => p.2.filename == href && !(fragTruthy p.2))
            match existing with
            | some p =>
              let existingId := p.1
              let c0 := p.2
              let c1 := if st.titleExtraction.contains (S "NAV")
                then { c0 with title := navLabel } else c0
              let st1 := { st with chapters := omSet st.chapters existingId c1 }
              let st2 :=
                if optTruthy parentId && !(c1.parentId == parentId) then
                  let c2 := { c1 with parentId := parentId }
                  let stA := { st1 with chapters := omSet st1.chapters existingId c2 }
                  match parentId with
                  | some pid =>
                    (match omGet stA.chapters pid with
                     | some parent =>
                       if (parent.children.find? (fun i => i == existingId)).isSome
                       then stA
                       else
                         let parent' :=
                           { parent with children := parent.children ++ [existingId] }
                         { stA with chapters := omSet stA.chapters pid parent' }
                     | none => stA)
                  | none => stA
                else st1
              (.ok existingId, st2)
            | none =>
              let content := zdataAsString zf.data
              let titleInfo := extractTitleInfo st content (some navLabel)
              let opts : AddChapterOptions :=
                { title := jsOr titleInfo.title navLabel
                , content := some (extractBodyFromXHTML2 content)
                , headingLevel := titleInfo.headingLevel
                , linear := some linear, parentId := parentId }
              match addChapter st opts with
              | (.error e, st') => (.error e, st')
              | (.ok cid, st') =>
                (.ok cid, setTracking st' cid
                  (fun c => { c with filename := href, order := order }))
        match stepResult with
        | (.error e, st') => (.error e, st', files)
        | (.ok chapterId, st') => (.ok (some chapterId), st', files)

/-- The loop over a list of NCX navigation points with a shared parent,
performing the pending child recursions returned by `processNavPoint`.
Fuel-indexed structural recursion; each recursive call is on a list of
strictly smaller `ncxSizeList`, so the initial fuel (one more than the nav
map's `ncxSizeList`) never runs out. -/
def processNavPoints (fuel : Nat) (ctx : NavCtx) (nps : List NcxPoint)
    (parentId : Option Str) (st : EpubState) (files : List Str) :
    (Except Str Unit) × EpubState × List Str :=
  match fuel with
  | 0 => (.ok (), st, files)
  | fuel + 1 =>
    match nps with
    | [] => (.ok (), st, files)
    | np :: rest =>
      match processNavPoint ctx np parentId st files with
      | (.error e, st', files') => (.error e, st', files')
      | (.ok none, st', files') => processNavPoints fuel ctx rest parentId st' files'
      | (.ok (some chapterId), st', files') =>
        match processNavPoints fuel ctx np.children (some chapterId) st' files' with
        | (.error e, st'', files'') => (.error e, st'', files'')
        | (.ok (), st'', files'') => processNavPoints fuel ctx rest parentId st'' files''

/-- `handleOrphanedChapters` (v2: no nav-properties skip, div body
extraction). -/
def handleOrphanedChapters2 (ctx : NavCtx) (st : EpubState) (files : List Str) :
    (Except Str Unit) × EpubState :=
  ctx.spineMap.foldl
    (fun acc p =>
      match acc with
      | (.error e, st) => (.error e, st)
      | (.ok (), st) =>
        let idref := p.1
        let spineInfo := p.2
        match omGet ctx.manifestMap idref with
        | none => (.ok (), st)
        | some mi =>
          if !(mi.mediaType == S "application/xhtml+xml") then (.ok (), st)
          else
            let href := mi.href
            if files.contains href then (.ok (), st)
            else
              match zipFile ctx.zip (ctx.opfDir ++ href) with
              | none =>
                (.ok (), addWarning st (S "Orphaned chapter file \"" ++ href
                  ++ S "\" not found in EPUB"))
              | some f =>
                let st := addWarning st (S "Chapter \"" ++ href
                  ++ S "\" found in spine but not in navigation, adding as root chapter")
                let content := zdataAsString f.data
                let titleInfo := extractTitleInfo st content none
                let opts : AddChapterOptions :=
                  { title := jsOr titleInfo.title (S "Orphaned: " ++ href)
                  , content := some (extractBodyFromXHTML2 content)
                  , headingLevel := titleInfo.headingLevel
                  , linear := some spineInfo.linear }
                match addChapter st opts with
                | (.error e, st') => (.error e, st')
                | (.ok cid, st') =>
                  (.ok (), setTracking st' cid
                    (fun c => { c with filename := href, order := spineInfo.order })))
    (.ok (), st)

/-- `extractChaptersFromSpine` (v2 fallback). -/
def extractChaptersFromSpine2 (ctx : NavCtx) (st : EpubState) :
    (Except Str Unit) × EpubState :=
  ctx.spineMap.foldl
    (fun acc p =>
      match acc with
      | (.error e, st) => (.error e, st)
      | (.ok (), st) =>
        let spineInfo := p.2
        match omGet ctx.manifestMap p.1 with
        | none => (.ok (), st)
        | some mi =>
          if !(mi.mediaType == S "application/xhtml+xml") then (.ok (), st)
          else
            match zipFile ctx.zip (ctx.opfDir ++ mi.href) with
            | none => (.ok (), st)
            | some f =>
              let content := zdataAsString f.data
              let titleInfo := extractTitleInfo st content none
              let opts : AddChapterOptions :=
                { title := jsOr titleInfo.title
                    (S "Chapter " ++ natStr (st.chapters.length + 1))
                , content := some (extractBodyFromXHTML2 content)
                , headingLevel := titleInfo.headingLevel
                , linear := some spineInfo.linear }
              match addChapter st opts with
              | (.error e, st') => (.error e, st')
              | (.ok cid, st') =>
                (.ok (), setTracking st' cid
                  (fun c => { c with filename := mi.href, order := spineInfo.order })))
    (.ok (), st)

/-- `EPUB2Builder.extractChapters`. -/
def extractChapters2 (st : EpubState) (zip : Zip) (manifest : List OpfItem)
    (opfDir : Str) (spine : List OpfItemref) : (Except Str Unit) × EpubState :=
  let ctx : NavCtx :=
    { zip := zip, manifestMap := buildManifestMap manifest
    , opfDir := opfDir, spineMap := buildSpineMap spine }
  match manifest.find? (fun item => item.mediaType == S "application/x-dtbncx+xml") with
  | none =>
    let st := addWarning st
      (S "No NCX file found in manifest, falling back to spine-only parsing")
    extractChaptersFromSpine2 ctx st
  | some ncxItem =>
    let ncxPath := opfDir ++ ncxItem.href
    match zipFile zip ncxPath with
    | none =>
      let st := addWarning st (S "NCX file not found at " ++ ncxPath
        ++ S ", falling back to spine-only parsing")
      extractChaptersFromSpine2 ctx st
    | some ncxFile =>
      match ncxFile.data with
      | .ncx navMap =>
        (match processNavPoints (ncxSizeList navMap + 1) ctx navMap none st [] with
         | (.ok (), st1, files) =>
           (match handleOrphanedChapters2 ctx st1 files with
            | (.ok (), st2) => (.ok (), st2)
            | (.error e, st2) =>
              let st3 := addWarning st2 (S "Failed to parse NCX: " ++ e)
              extractChaptersFromSpine2 ctx st3)
         | (.error e, st1, _) =>
           let st2 := addWarning st1 (S "Failed to parse NCX: " ++ e)
           extractChaptersFromSpine2 ctx st2)
      | _ =>
        -- `parseStringPromise` rejects on a non-NCX entry; the try/catch
        -- converts that into the warning-plus-fallback path.
        let st2 := addWarning st (S "Failed to parse NCX: malformed XML")
        extractChaptersFromSpine2 ctx st2

/-- `extractResources` (v2 instantiation). -/
def extractResources2 (st : EpubState) (zip : Zip) (p : OpfPackage)
    (opfPath : Str) : (Except Str Unit) × EpubState :=
  let opfDir := opfDirOf opfPath
  match extractChapters2 st zip p.manifest opfDir p.spine with
  | (.error e, st') => (.error e, st')
  | (.ok (), st') => extractImagesOp st' zip p.manifest opfDir

/-- `EPUB2Builder.parseBuffer`. -/
def parseBuffer2 (buffer : Zip) (options : EPUBOptions := {}) :
    Except Str EpubState :=
  let run : Except Str EpubState :=
    match parseEpubZip buffer with
    | .error e => .error e
    | .ok (zip, opfData, opfPath) =>
      let metadata := extractMetadata opfData
      match mkBuilder metadata options with
      | .error e => .error e
      | .ok epub =>
        match extractResources2 epub zip opfData opfPath with
        | (.error e, _) => .error e
        | (.ok (), st) => .ok st
  match run with
  | .ok st => .ok st
  | .error e => .error (S "Failed to parse EPUB buffer: " ++ e)

end Epub

namespace Epub

/-! ## Shared lemmas about the ordered-map operations and decimal rendering -/

theorem omGet_omSet_self {α} (m : OMap α) (k : Str) (v : α) :
    omGet (omSet m k v) k = some v := by
  induction m with
  | nil => simp [omSet, omGet]
  | cons p rest ih =>
    obtain ⟨k', v'⟩ := p
    by_cases h : k' = k
    · subst h
      simp [omSet, omGet]
    · have hb : (k' == k) = false := by simp [h]
      simp [omSet, omGet, hb, ih]

theorem omGet_omSet_ne {α} (m : OMap α) (k k' : Str) (v : α) (h : k ≠ k') :
    omGet (omSet m k v) k' = omGet m k' := by
  have hb : (k == k') = false := by simp [h]
  induction m with
  | nil => simp [omSet, omGet, hb]
  | cons p rest ih =>
    obtain ⟨k0, v0⟩ := p
    by_cases h0 : k0 = k
    · subst h0
      simp [omSet, omGet, hb]
    · have hb0 : (k0 == k) = false := by simp [h0]
      simp [omSet, omGet, hb0, ih]

/-- `omSet` on a present key splits the map around that entry. -/
theorem omSet_decomp {α} (m : OMap α) (k : Str) (c : α)
    (h : omGet m k = some c) :
    ∀ v, ∃ m1 m2, m = m1 ++ (k, c) :: m2 ∧ omSet m k v = m1 ++ (k, v) :: m2 ∧
      ∀ p ∈ m1, p.1 ≠ k := by
  induction m with
  | nil => simp [omGet] at h
  | cons p rest ih =>
    obtain ⟨k0, v0⟩ := p
    intro v
    by_cases h0 : k0 = k
    · subst h0
      simp only [omGet, beq_self_eq_true, if_pos, Option.some.injEq] at h
      refine ⟨[], rest, by simp [h], ?_, by simp⟩
      simp [omSet]
    · have hb : (k0 == k) = false := by simp [h0]
      simp only [omGet, hb] at h
      have h' : omGet rest k = some c := by simpa [omGet] using h
      obtain ⟨m1, m2, he, hs, hne⟩ := ih h' v
      refine ⟨(k0, v0) :: m1, m2, by simp [he], ?_, ?_⟩
      · simp only [omSet, hb]
        simp [hs]
      · intro p hp
        rcases List.mem_cons.mp hp with h1 | h1
        · subst h1; exact h0
        · exact hne p h1

theorem digitChar_lt_inj {a b : Nat} (ha : a < 10) (hb : b < 10)
    (h : digitChar a = digitChar b) : a = b := by
  interval_cases a <;> interval_cases b <;> revert h <;> decide

theorem natStrAux_congr : ∀ f1 f2 n, n < f1 → n < f2 →
    natStrAux f1 n = natStrAux f2 n := by
  intro f1
  induction f1 with
  | zero => intro f2 n h1 _; exact absurd h1 (Nat.not_lt_zero n)
  | succ f ih =>
    intro f2 n h1 h2
    cases f2 with
    | zero => exact absurd h2 (Nat.not_lt_zero n)
    | succ g =>
      simp only [natStrAux]
      by_cases hn : n < 10
      · simp [hn]
      · simp only [if_neg hn]
        have hd : n / 10 < n := Nat.div_lt_self (by omega) (by omega)
        rw [ih g (n / 10) (by omega) (by omega)]

theorem natStr_small {n : Nat} (h : n < 10) : natStr n = [digitChar n] := by
  simp [natStr, natStrAux, h]

theorem natStr_big {n : Nat} (h : ¬ n < 10) :
    natStr n = natStr (n / 10) ++ [digitChar (n % 10)] := by
  have hd : n / 10 < n := Nat.div_lt_self (by omega) (by omega)
  show natStrAux (n + 1) n = natStrAux (n / 10 + 1) (n / 10) ++ [digitChar (n % 10)]
  rw [show natStrAux (n + 1) n
      = if n < 10 then [digitChar n]
        else natStrAux n (n / 10) ++ [digitChar (n % 10)] from rfl]
  rw [if_neg h]
  rw [natStrAux_congr n (n / 10 + 1) (n / 10) (by omega) (by omega)]

theorem natStr_ne_nil (n : Nat) : natStr n ≠ [] := by
  by_cases h : n < 10
  · rw [natStr_small h]; simp
  · rw [natStr_big h]; simp

theorem natStr_length_pos (n : Nat) : 1 ≤ (natStr n).length := by
  cases hx : natStr n with
  | nil => exact absurd hx (natStr_ne_nil n)
  | cons a l => simp

theorem natStr_inj : ∀ m n, natStr m = natStr n → m = n := by
  intro m
  induction m using Nat.strong_induction_on with
  | _ m ih =>
    intro n h
    by_cases hm : m < 10 <;> by_cases hn : n < 10
    · rw [natStr_small hm, natStr_small hn] at h
      simp only [List.cons.injEq, and_true] at h
      exact digitChar_lt_inj hm hn h
    · rw [natStr_small hm, natStr_big hn] at h
      have hl := congrArg List.length h
      have := natStr_length_pos (n / 10)
      simp only [List.length_cons, List.length_append, List.length_nil] at hl
      omega
    · rw [natStr_big hm, natStr_small hn] at h
      have hl := congrArg List.length h
      have := natStr_length_pos (m / 10)
      simp only [List.length_cons, List.length_append, List.length_nil] at hl
      omega
    · rw [natStr_big hm, natStr_big hn] at h
      have hr := congrArg List.reverse h
      simp only [List.reverse_append, List.reverse_cons, List.reverse_nil,
        List.nil_append, List.cons_append, List.cons.injEq] at hr
      obtain ⟨hd, ht⟩ := hr
      have hdd : m % 10 = n % 10 :=
        digitChar_lt_inj (Nat.mod_lt _ (by omega)) (Nat.mod_lt _ (by omega)) hd
      have ht2 : natStr (m / 10) = natStr (n / 10) := by
        have := congrArg List.reverse ht
        simpa using this
      have hq : m / 10 = n / 10 :=
        ih (m / 10) (Nat.div_lt_self (by omega) (by omega)) (n / 10) ht2
      omega

/-- Decimal strings with a common prefix and suffix identify their number. -/
theorem affix_natStr_inj (pre suf : Str) {m n : Nat}
    (h : pre ++ natStr m ++ suf = pre ++ natStr n ++ suf) : m = n := by
  have h0 : pre ++ (natStr m ++ suf) = pre ++ (natStr n ++ suf) := by
    simpa [List.append_assoc] using h
  have h1 : natStr m ++ suf = natStr n ++ suf := List.append_cancel_left h0
  have hlen : (natStr m).length = (natStr n).length := by
    have := congrArg List.length h1
    simp only [List.length_append] at this
    omega
  exact natStr_inj _ _ (List.append_inj_left h1 hlen)

end Epub

namespace Epub

theorem omSet_omSet_same {α} (m : OMap α) (k : Str) (v w : α) :
    omSet (omSet m k v) k w = omSet m k w := by
  induction m with
  | nil => simp [omSet]
  | cons p rest ih =>
    obtain ⟨k0, v0⟩ := p
    by_cases h0 : k0 = k
    · subst h0
      simp [omSet]
    · have hb : (k0 == k) = false := by simp [h0]
      simp [omSet, hb, ih]

/-! ## C10 — append homomorphism -/

/-- C10: for every publication and chapter id present in it, calling
`appendToChapter(id, a)` and then `appendToChapter(id, b)` yields exactly the
state of the single call `appendToChapter(id, a ++ b)`; both succeed, only
that chapter's record changes, and its content becomes the previous content
followed by `a` followed by `b`. -/
theorem appendToChapter_hom (st : EpubState) (cid a b : Str) (c : Chapter)
    (hc : omGet st.chapters cid = some c) :
    (appendToChapter st cid a).1 = .ok () ∧
    appendToChapter (appendToChapter st cid a).2 cid b =
      appendToChapter st cid (a ++ b) ∧
    (appendToChapter st cid (a ++ b)).2 =
      { st with chapters := omSet st.chapters cid { c with content := c.content ++ (a ++ b) } } ∧
    omGet (appendToChapter st cid (a ++ b)).2.chapters cid =
      some { c with content := c.content ++ (a ++ b) } ∧
    ∀ k, k ≠ cid → omGet (appendToChapter st cid (a ++ b)).2.chapters k =
      omGet st.chapters k := by
  refine ⟨?_, ?_, ?_, ?_, ?_⟩
  · simp [appendToChapter, hc]
  · simp only [appendToChapter, hc]
    simp only [omGet_omSet_self, omSet_omSet_same]
    simp [List.append_assoc]
  · simp [appendToChapter, hc]
  · simp [appendToChapter, hc, omGet_omSet_self]
  · intro k hk
    simp only [appendToChapter, hc]
    exact omGet_omSet_ne _ _ _ _ (fun he => hk he.symm)

/-- A fallback state for closing `Except` matches in concrete constructions. -/
def emptyState : EpubState :=
  { metadata := { title := S "T", creator := S "A" }, chapters := [], images := []
  , stylesheets := [], rootChapterIds := [], chapterCounter := 0
  , includeDefStyleSheet := true, ignoreHeadTitle := false
  , titleExtraction := [], warnings := [], uuidSeed := 0 }

/-- A freshly constructed publication with title `T` and creator `A`. -/
def cexBase : EpubState :=
  (mkBuilder { title := S "T", creator := S "A" }).toOption.getD emptyState

/-- `cexBase` with one chapter holding content `<p>x</p>`. -/
def cexOneChapter : EpubState :=
  (addChapter cexBase { title := S "One", content := some (S "<p>x</p>") }).2

/-- Witness for C10: the homomorphism evaluated on a one-chapter publication
with `a = "ab"`, `b = "cd"`. -/
theorem appendToChapter_hom_witness :
    (appendToChapter cexOneChapter (S "chapter-uuid-1") (S "ab")).1 = .ok () ∧
    appendToChapter
        (appendToChapter cexOneChapter (S "chapter-uuid-1") (S "ab")).2
        (S "chapter-uuid-1") (S "cd") =
      appendToChapter cexOneChapter (S "chapter-uuid-1") (S "ab" ++ S "cd") := by
  have hc : omGet cexOneChapter.chapters (S "chapter-uuid-1") =
      some { id := S "chapter-uuid-1", title := S "One", content := S "<p>x</p>"
           , filename := S "text/chapter-1.xhtml", parentId := none, order := 1
           , children := [], headingLevel := none, linear := true } := by decide
  have h := appendToChapter_hom cexOneChapter (S "chapter-uuid-1")
    (S "ab") (S "cd") _ hc
  exact ⟨h.1, h.2.1⟩

/-! ## C4 — addChapter failure atomicity -/

/-- C4 counterexample: an `addChapter` call with an unknown parent on a fresh
publication throws, leaves the chapters map and root list unchanged, but the
`chapterCounter` used to mint subsequent chapter filenames has advanced — the
publication state is not left unchanged as claimed. -/
theorem addChapter_unknown_parent_counter_cex :
    (addChapter cexBase { title := S "X", parentId := some (S "nope") }).1 =
      .error (S "Parent chapter with ID \"nope\" not found") ∧
    (addChapter cexBase { title := S "X", parentId := some (S "nope") }).2.chapters =
      cexBase.chapters ∧
    (addChapter cexBase { title := S "X", parentId := some (S "nope") }).2.rootChapterIds =
      cexBase.rootChapterIds ∧
    cexBase.chapterCounter = 0 ∧
    (addChapter cexBase { title := S "X", parentId := some (S "nope") }).2.chapterCounter = 1 := by
  decide

/-- C4 amended: `addChapter` with a non-empty `parentId` naming no existing
chapter throws the unknown-parent error and leaves the chapters map and the
root list unchanged, but increments `chapterCounter` by one (and consumes an
id draw), so subsequent chapter filenames skip a number. -/
theorem addChapter_unknown_parent_partial_atomic (st : EpubState)
    (o : AddChapterOptions) (p : Str) (hp : o.parentId = some p) (hne : p ≠ [])
    (hmiss : omGet st.chapters p = none) :
    (addChapter st o).1 =
      .error (S "Parent chapter with ID \"" ++ p ++ S "\" not found") ∧
    (addChapter st o).2.chapters = st.chapters ∧
    (addChapter st o).2.rootChapterIds = st.rootChapterIds ∧
    (addChapter st o).2.chapterCounter = st.chapterCounter + 1 := by
  have hb : (p == []) = false := by simp [hne]
  simp [addChapter, hp, hb, generateChapterId, uuidFresh, hmiss]

/-- Witness for the amended C4 statement at a concrete input. -/
theorem addChapter_unknown_parent_partial_atomic_witness :
    (addChapter cexBase { title := S "X", parentId := some (S "nope") }).2.chapterCounter =
      cexBase.chapterCounter + 1 :=
  (addChapter_unknown_parent_partial_atomic cexBase
    { title := S "X", parentId := some (S "nope") } (S "nope") rfl
    (by decide) (by decide)).2.2.2

end Epub

namespace Epub

/-! ## Further shared lemmas about the ordered-map operations -/

theorem omHas_false_iff {α} (m : OMap α) (k : Str) :
    omHas m k = false ↔ omGet m k = none := by
  induction m with
  | nil => simp [omHas, omGet]
  | cons p rest ih =>
    obtain ⟨k0, v0⟩ := p
    by_cases h0 : k0 = k
    · subst h0
      simp [omHas, omGet]
    · have hb : (k0 == k) = false := by simp [h0]
      simp [omHas, omGet, hb, ih]

theorem omHas_omSet {α} (m : OMap α) (k j : Str) (v : α) :
    omHas (omSet m k v) j = (omHas m j || k == j) := by
  induction m with
  | nil => simp [omSet, omHas]
  | cons p rest ih =>
    obtain ⟨k0, v0⟩ := p
    by_cases h0 : k0 = k
    · subst h0
      by_cases hj : k0 = j
      · simp [omSet, omHas, hj]
      · have hbj : (k0 == j) = false := by simp [hj]
        simp [omSet, omHas, hbj]
    · have hb : (k0 == k) = false := by simp [h0]
      by_cases hj : k0 = j
      · subst hj
        simp [omSet, omHas, hb]
      · have hbj : (k0 == j) = false := by simp [hj]
        simp [omSet, omHas, hb, hbj, ih]

theorem omSet_append_fresh {α} (m : OMap α) (k : Str) (v : α)
    (h : omHas m k = false) : omSet m k v = m ++ [(k, v)] := by
  induction m with
  | nil => simp [omSet]
  | cons p rest ih =>
    obtain ⟨k0, v0⟩ := p
    simp only [omHas, Bool.or_eq_false_iff] at h
    simp [omSet, h.1, ih h.2]

theorem omSet_length_fresh {α} (m : OMap α) (k : Str) (v : α)
    (h : omHas m k = false) : (omSet m k v).length = m.length + 1 := by
  simp [omSet_append_fresh m k v h]

theorem strJoin_mem_decomp (sep : Str) :
    ∀ (l : List Str) (e : Str), e ∈ l →
      ∃ a b, strJoin sep l = a ++ (e ++ b) := by
  intro l
  induction l with
  | nil => intro e he; cases he
  | cons x xs ih =>
    intro e he
    match xs, ih with
    | [], _ =>
      have hx : e = x := by simpa using he
      exact ⟨[], [], by simp [strJoin, hx]⟩
    | y :: ys, ih =>
      rcases List.mem_cons.mp he with hx | hm
      · exact ⟨[], sep ++ strJoin sep (y :: ys), by simp [strJoin, hx]⟩
      · obtain ⟨a, b, hab⟩ := ih e hm
        exact ⟨x ++ sep ++ a, b, by simp [strJoin, hab]⟩

/-- All chapter-id references of a publication: the root list followed by
every chapter's `children` list (the union C6 speaks about, as a list). -/
def memberList (st : EpubState) : List Str :=
  st.rootChapterIds ++ (st.chapters.map (fun p => p.2.children)).flatten

/-- `EPUB3Builder.parseBuffer` applied to the archive `export()` produced
(the round trip of C1). -/
def roundTrip3 (st : EpubState) : Except Str EpubState :=
  match exportEpub3 st with
  | .ok z => parseBuffer3 z
  | .error e => .error e

/-- `cexOneChapter` with a second root chapter: a flat two-chapter book. -/
def flatBook : EpubState :=
  (addChapter cexOneChapter { title := S "Two", content := some (S "<p>y</p>") }).2

/-- `cexOneChapter` with a second chapter nested under the first. -/
def nestedBook : EpubState :=
  (addChapter cexOneChapter
    { title := S "Two", content := some (S "<p>y</p>")
    , parentId := some (S "chapter-uuid-1") }).2

end Epub

namespace Epub

/-! ## Concrete archives used as evaluation inputs -/

/-- A v3 navigation document whose single entry carries a fragment. -/
def fragNav : Str :=
  S "<nav epub:type=\"toc\"><ol><li><a href=\"c1.xhtml#s1\">Sec</a></li></ol></nav>"

def fragOpf : OpfPackage :=
  { meta := { title := some (S "T"), creator := some (S "A") }
  , manifest :=
      [ { id := S "nav", href := S "nav.xhtml"
        , mediaType := S "application/xhtml+xml", properties := some (S "nav") }
      , { id := S "c1", href := S "c1.xhtml", mediaType := S "application/xhtml+xml" } ]
  , spine := [ { idref := S "c1" } ] }

/-- A well-formed EPUB 3 archive whose navigation references `c1.xhtml#s1`. -/
def fragZip : Zip :=
  [ { name := S "mimetype", data := .str (S "application/epub+zip") }
  , { name := S "META-INF/container.xml", data := .containerX (some (S "EPUB/package.opf")) }
  , { name := S "EPUB/package.opf", data := .opf fragOpf }
  , { name := S "EPUB/nav.xhtml", data := .str fragNav }
  , { name := S "EPUB/c1.xhtml"
    , data := .str (S "<html><head><title>C1</title></head><body><section><h1>C1</h1><p>z</p></section></body></html>") } ]

/-- An entry name whose normalized target is the sibling directory
`archive_tmpevil` of the extraction root `archive_tmp`. -/
def evilEntryName : Str := S "../archive_tmpevil/f.txt"

/-- `fragZip` with the escaping entry appended. -/
def evilZip : Zip := fragZip ++ [{ name := evilEntryName, data := .str (S "boom") }]

/-- `fragZip` with a binary entry of `MAX_SIZE + 1` uncompressed bytes. -/
def oversizedZip : Zip :=
  fragZip ++ [{ name := S "EPUB/big.bin", data := .blob (MAX_SIZE + 1) }]

/-- Modelled from the spec: a resolved path lies inside the notional
extraction root iff it is the root itself or extends it past a path
separator (the spec-side reading of "escapes the extraction root"). -/
def insideRoot (p : Str) : Bool :=
  p == targetDirectory || strStarts (targetDirectory ++ S "/") p

def ncxOpf : OpfPackage :=
  { meta := { title := some (S "T"), creator := some (S "A") }
  , manifest :=
      [ { id := S "ncx", href := S "toc.ncx", mediaType := S "application/x-dtbncx+xml" }
      , { id := S "a", href := S "a.xhtml", mediaType := S "application/xhtml+xml" }
      , { id := S "b", href := S "b.xhtml", mediaType := S "application/xhtml+xml" } ]
  , spine := [ { idref := S "a" }, { idref := S "b" } ] }

/-- An NCX nav map that references `a.xhtml` twice: once as a top-level
point and once as a child of the `b.xhtml` point. -/
def ncxMap : List NcxPoint :=
  [ .mk (some (S "A")) (some (S "a.xhtml")) []
  , .mk (some (S "B")) (some (S "b.xhtml"))
      [ .mk (some (S "A again")) (some (S "a.xhtml")) [] ] ]

/-- A well-formed EPUB 2 archive with the duplicate NCX reference. -/
def ncxZip : Zip :=
  [ { name := S "mimetype", data := .str (S "application/epub+zip") }
  , { name := S "META-INF/container.xml", data := .containerX (some (S "EPUB/package.opf")) }
  , { name := S "EPUB/package.opf", data := .opf ncxOpf }
  , { name := S "EPUB/toc.ncx", data := .ncx ncxMap }
  , { name := S "EPUB/a.xhtml", data := .str (S "<html><body><div><h1>A</h1><p>a</p></div></body></html>") }
  , { name := S "EPUB/b.xhtml", data := .str (S "<html><body><div><h1>B</h1><p>b</p></div></body></html>") } ]

/-- A publication whose metadata fails validation (empty title). -/
def invalidMetaState : EpubState :=
  { emptyState with metadata := { title := [], creator := S "A" } }

end Epub

namespace Epub

set_option maxRecDepth 4000000

/-! ## C1 — round trip through export and parseBuffer -/

/-- C1 counterexample: `nestedBook` is built through the build API with two
chapters, the second nested under the first (one root chapter).  Exporting it
and re-parsing with `parseBuffer` yields a publication with two chapters but
TWO root chapters: the root chapter count is not preserved, because the
parser's lazy `<li[^>]*>(.*?)</li>` item capture can never contain a nested
list, so the exported nesting is flattened. -/
theorem roundtrip_nested_root_count_cex :
    nestedBook.chapters.length = 2 ∧
    nestedBook.rootChapterIds.length = 1 ∧
    (roundTrip3 nestedBook).toOption.map
      (fun st => (st.chapters.length, st.rootChapterIds.length)) = some (2, 2) := by
  decide

/-- C1 amended: for a flat publication built through the build API (all
chapters are roots), export followed by `parseBuffer` preserves
`metadata.title`, `metadata.creator`, `metadata.language`, the chapter count
and the root chapter count, shown on the representative two-chapter book
`flatBook`. -/
theorem roundtrip_flat_preserved :
    (roundTrip3 flatBook).toOption.map
      (fun st => (st.metadata.title, st.metadata.creator, st.metadata.language,
        st.chapters.length, st.rootChapterIds.length)) =
    some (flatBook.metadata.title, flatBook.metadata.creator,
      flatBook.metadata.language, flatBook.chapters.length,
      flatBook.rootChapterIds.length) := by
  decide

/-! ## C2 — resource ceilings -/

/-- C2: the size ceiling never rejects.  `oversizedZip` sums to
`MAX_SIZE + 1` uncompressed bytes and more, yet `unzip` accepts it and
`parseBuffer` returns a publication: the source's `totalSize > MAX_SIZE`
throw sits inside a detached `file.async(...).then(...)` callback whose
promise `unzip` never awaits, so the check cannot fail the archive. -/
theorem size_ceiling_never_rejects :
    MAX_SIZE < totalUncompressedSize oversizedZip ∧
    (unzip oversizedZip).isOk = true ∧
    (parseBuffer3 oversizedZip).isOk = true := by
  decide

/-! ## C3 — path-traversal safety -/

/-- C3 counterexample: `evilZip` contains the entry
`../archive_tmpevil/f.txt`, whose normalized target
`/app/dist/base-epub/archive_tmpevil/f.txt` lies outside the extraction root
`/app/dist/base-epub/archive_tmp` — yet it passes the code's
`startsWith(targetDirectory)` string-prefix test, so `unzip` accepts the
archive and `parseBuffer` returns a publication. -/
theorem path_prefix_escape_cex :
    (evilZip.map (fun e => e.name)).contains evilEntryName = true ∧
    insideRoot (nodeJoin targetDirectory evilEntryName) = false ∧
    strStarts targetDirectory (nodeJoin targetDirectory evilEntryName) = true ∧
    (unzip evilZip).isOk = true ∧
    (parseBuffer3 evilZip).isOk = true := by
  decide

theorem unzipLoop_ok_iff : ∀ (z : List ZEntry) (count : Nat), count ≤ MAX_FILES →
    (unzipLoop count z = .ok () ↔
      count + z.length ≤ MAX_FILES ∧
      ∀ e ∈ z, strStarts targetDirectory (nodeJoin targetDirectory e.name) = true) := by
  intro z
  induction z with
  | nil =>
    intro count hc
    simpa [unzipLoop] using hc
  | cons e rest ih =>
    intro count hc
    by_cases hover : count + 1 > MAX_FILES
    · have hlen : ¬ (count + (e :: rest).length ≤ MAX_FILES) := by
        simp only [List.length_cons]
        omega
      simp only [unzipLoop, if_pos hover]
      constructor
      · intro h
        exact absurd h (by simp)
      · rintro ⟨h1, -⟩
        exact absurd h1 hlen
    · have hc1 : count + 1 ≤ MAX_FILES := by omega
      by_cases hpath : strStarts targetDirectory (nodeJoin targetDirectory e.name) = true
      · have hrec := ih (count + 1) hc1
        simp only [unzipLoop, if_neg hover, hpath, Bool.not_true, Bool.false_eq_true,
          if_false]
        rw [hrec]
        constructor
        · rintro ⟨h1, h2⟩
          refine ⟨by simpa using (by omega : count + rest.length + 1 ≤ MAX_FILES), ?_⟩
          intro x hx
          rcases List.mem_cons.mp hx with hx | hx
          · rw [hx]; exact hpath
          · exact h2 x hx
        · rintro ⟨h1, h2⟩
          refine ⟨by simp only [List.length_cons] at h1; omega, ?_⟩
          intro x hx
          exact h2 x (List.mem_cons_of_mem e hx)
      · have hfail : (strStarts targetDirectory (nodeJoin targetDirectory e.name)) = false := by
          simpa using hpath
        simp [unzipLoop, hover, hfail, hpath]

/-- C3 amended: `unzip` accepts an archive exactly when it has at most
`MAX_FILES` entries and every entry's resolved path passes the
`startsWith(targetDirectory)` string-prefix test.  The prefix test is weaker
than containment in the extraction root: sibling paths such as
`../archive_tmpevil/...` (see the counterexample) share the string prefix
while escaping the root, and are accepted. -/
theorem unzip_accepts_iff (z : Zip) :
    (unzip z).isOk = true ↔
      z.length ≤ MAX_FILES ∧
      ∀ e ∈ z, strStarts targetDirectory (nodeJoin targetDirectory e.name) = true := by
  have h := unzipLoop_ok_iff z 0 (by decide)
  rw [Nat.zero_add] at h
  rw [← h]
  cases hu : unzipLoop 0 z with
  | ok u => cases u; simp [unzip, hu, Except.isOk, Except.toBool]
  | error e => simp [unzip, hu, Except.isOk, Except.toBool]

/-! ## C5 — export refusal on validation errors -/

/-- C5: whenever `options.validate` is not `false` and `validate()` reports a
non-empty error list, `export` throws the `EPUB validation failed:` error
carrying every validation message (each error is a substring of the thrown
message); when the error list is empty it proceeds to build the archive; and
with `options.validate = false` it skips the check and builds the archive
regardless. -/
theorem export_validation_gate (st : EpubState) (options : ExportOptions) :
    (options.validate ≠ some false → (validate st).errors ≠ [] →
      exportEpub3 st options =
        .error (S "EPUB validation failed:\n" ++ strJoin (S "\n") (validate st).errors) ∧
      ∀ e ∈ (validate st).errors, ∃ a b,
        S "EPUB validation failed:\n" ++ strJoin (S "\n") (validate st).errors
          = a ++ (e ++ b)) ∧
    (options.validate ≠ some false → (validate st).errors = [] →
      exportEpub3 st options = .ok (exportEpub3.buildZip3 st)) ∧
    (options.validate = some false →
      exportEpub3 st options = .ok (exportEpub3.buildZip3 st)) := by
  have hvr : (validate st).isValid = decide ((validate st).errors.length = 0) := rfl
  refine ⟨?_, ?_, ?_⟩
  · intro hv he
    have hb : (options.validate == some false) = false := by simpa using hv
    have hval : (validate st).isValid = false := by
      rw [hvr]
      simp [List.length_eq_zero, he]
    refine ⟨by simp [exportEpub3, hb, hval], ?_⟩
    intro e hme
    obtain ⟨a, b, hab⟩ := strJoin_mem_decomp (S "\n") (validate st).errors e hme
    exact ⟨S "EPUB validation failed:\n" ++ a, b, by rw [hab, List.append_assoc]⟩
  · intro hv he
    have hb : (options.validate == some false) = false := by simpa using hv
    have hval : (validate st).isValid = true := by
      rw [hvr]
      simp [he]
    simp [exportEpub3, hb, hval]
  · intro hv
    have hb : (options.validate == some false) = true := by simp [hv]
    simp [exportEpub3, hb]

/-- Witness for C5: a publication with an empty title is refused by `export`
with the aggregated validation message. -/
theorem export_validation_gate_witness :
    exportEpub3 invalidMetaState {} =
      .error (S "EPUB validation failed:\n"
        ++ strJoin (S "\n") (validate invalidMetaState).errors) :=
  ((export_validation_gate invalidMetaState {}).1 (by decide) (by decide)).1

/-! ## C9 — title extraction priority -/

/-- C9: during deserialization the extracted chapter title is the value of
the first source in the configured `titleExtraction` order whose extracted
string is non-empty: if every source before `src` yields an empty or missing
value and `src` yields the non-empty `v`, the title is `v`. -/
theorem title_extraction_priority (st : EpubState) (xhtml : Str)
    (navLabel : Option Str) (pre post : List Str) (src : Str) (v : Str)
    (hcfg : st.titleExtraction = pre ++ src :: post)
    (hpre : ∀ s ∈ pre, (titleSourceValue st xhtml navLabel s).getD [] = [])
    (hsrc : titleSourceValue st xhtml navLabel src = some v) (hv : v ≠ []) :
    (extractTitleInfo st xhtml navLabel).title = some v := by
  have main : ∀ l : List Str,
      (∀ s ∈ l, (titleSourceValue st xhtml navLabel s).getD [] = []) →
      firstTitleFrom st xhtml navLabel (l ++ src :: post) = some v := by
    intro l
    induction l with
    | nil =>
      intro _
      have hb : (v == []) = false := by simp [hv]
      simp [firstTitleFrom, hsrc, hb]
    | cons s l ih =>
      intro hall
      have hs := hall s (by simp)
      have hrest : ∀ x ∈ l, (titleSourceValue st xhtml navLabel x).getD [] = [] :=
        fun x hx => hall x (by simp [hx])
      cases hts : titleSourceValue st xhtml navLabel s with
      | none =>
        simp only [List.cons_append, firstTitleFrom, hts]
        exact ih hrest
      | some t =>
        have ht : t = [] := by rw [hts] at hs; simpa using hs
        subst ht
        simp only [List.cons_append, firstTitleFrom, hts]
        simpa using ih hrest
  show firstTitleFrom st xhtml navLabel st.titleExtraction = some v
  rw [hcfg]
  exact main pre hpre

/-- Witness for C9: with the default order `HEAD, CONTENT, NAV` and a markup
with no head `<title>` but an `<h1>`, the `<h1>` text supplies the title. -/
theorem title_extraction_priority_witness :
    (extractTitleInfo cexBase (S "<h1>Hello</h1>") (some (S "L"))).title =
      some (S "Hello") :=
  title_extraction_priority cexBase (S "<h1>Hello</h1>") (some (S "L"))
    [S "HEAD"] [S "NAV"] (S "CONTENT") (S "Hello")
    (by decide) (by decide) (by decide) (by decide)

end Epub

namespace Epub

/-! ## C8 — merge stylesheet handling -/

/-- A fold whose step fixes the accumulator leaves it unchanged. -/
theorem foldl_fix {α σ : Type} (f : σ → α → σ) (s : σ) (hs : ∀ a, f s a = s) :
    ∀ l : List α, l.foldl f s = s := by
  intro l
  induction l with
  | nil => rfl
  | cons a t ih =>
    rw [List.foldl_cons, hs a]
    exact ih

/-- A source publication holding one non-default stylesheet, written as a
state literal: the staged `addStylesheet` can never insert one (see
`sanitizeFilename`). -/
def mergeSrcLit : EpubState :=
  let sheet : StylesheetResource :=
    { id := S "style-x", filename := S "css/s.css", content := S "bodyred" }
  { cexBase with stylesheets := omSet cexBase.stylesheets (S "style-x") sheet }

/-- C8: the claimed merge deduplication is unreachable, because
`copyStyleSheets` can never add a stylesheet or record a mapping.  For any
destination and any source whose non-default stylesheet list is non-empty,
with the first sheet's content hash not yet in the shared `addedStylesheets`
map, the merge step throws the `TypeError` raised by `sanitizeFilename`
inside `addStylesheet`, leaves the destination stylesheets and the shared
`addedStylesheets` map unchanged, and returns an empty per-source
`stylesheetMap`. -/
theorem stylesheet_merge_throws (hashFn : Str → Str) (sourceEPUB dest : EpubState)
    (seen0 : OMap Str) (b : Nat) (s1 : StylesheetResource)
    (rest : List StylesheetResource)
    (h1 : (getAllStylesheets sourceEPUB).filter (fun s => !(s.id == S "default-style"))
      = s1 :: rest)
    (hfresh : omHas seen0 (hashFn s1.content) = false) :
    (copyStyleSheets hashFn sourceEPUB seen0 b dest).1 =
      .error (S "TypeError: replaceAll must be called with a global RegExp") ∧
    (copyStyleSheets hashFn sourceEPUB seen0 b dest).2.1.stylesheets = dest.stylesheets ∧
    (copyStyleSheets hashFn sourceEPUB seen0 b dest).2.2.1 = seen0 ∧
    (copyStyleSheets hashFn sourceEPUB seen0 b dest).2.2.2 = [] := by
  have e1 : copyStyleSheets hashFn sourceEPUB seen0 b dest =
      (.error (S "TypeError: replaceAll must be called with a global RegExp"),
        (generateStylesheetId dest).2, seen0, []) := by
    simp only [copyStyleSheets, h1, List.foldl_cons, hfresh, Bool.not_false, if_true,
      addStylesheet, sanitizeFilename]
    exact foldl_fix _ _ (fun a => rfl) rest
  refine ⟨?_, ?_, ?_, ?_⟩ <;> (rw [e1]; try simp [generateStylesheetId, uuidFresh])

/-- Witness for C8: merging a literal one-stylesheet source into a fresh
destination throws the `TypeError` and adds nothing. -/
theorem stylesheet_merge_throws_witness :
    (copyStyleSheets (fun s => s) mergeSrcLit [] 1 cexBase).1 =
      .error (S "TypeError: replaceAll must be called with a global RegExp") ∧
    (copyStyleSheets (fun s => s) mergeSrcLit [] 1 cexBase).2.1.stylesheets
      = cexBase.stylesheets :=
  have h := stylesheet_merge_throws (fun s => s) mergeSrcLit cexBase [] 1
    { id := S "style-x", filename := S "css/s.css", content := S "bodyred" } []
    (by decide) (by decide)
  ⟨h.1, h.2.1⟩

end Epub

namespace Epub

set_option maxRecDepth 4000000

/-! ## C6 / C7 — structural invariants of reachable publications -/

/-- C6 counterexample: parsing the EPUB 2 archive `ncxZip`, whose NCX
references `a.xhtml` both as a top-level point and as a child of the
`b.xhtml` point, yields a publication in which the first chapter's id stays
in `rootChapterIds` AND is pushed into the second chapter's `children` —
the id appears twice across the union, so the membership invariant fails
on a parseBuffer-reachable publication. -/
theorem membership_duplicate_ncx_cex :
    (parseBuffer2 ncxZip).toOption.map (fun st =>
      (st.rootChapterIds.contains (S "chapter-uuid-1"),
       ((st.chapters.map (fun p => p.2.children)).flatten).contains (S "chapter-uuid-1"),
       decide (memberList st).Nodup)) = some (true, true, false) := by
  decide

/-- C7 counterexample: parsing `fragZip`, whose navigation references
`c1.xhtml#s1`, creates a backing chapter and a fragment chapter that share
the filename `c1.xhtml`: chapter filenames of a parseBuffer-reachable
publication are not pairwise distinct. -/
theorem fragment_duplicate_filename_cex :
    (parseBuffer3 fragZip).toOption.map (fun st =>
      (st.chapters.map (fun p => p.2.filename),
       decide (st.chapters.map (fun p => p.2.filename)).Nodup)) =
    some ([S "c1.xhtml", S "c1.xhtml"], false) := by
  decide

/-- One public build-API mutation (the chapter-deleting operation aside). -/
inductive BuildOp where
  | addCh (o : AddChapterOptions)
  | setContent (chapterId content : Str)
  | appendContent (chapterId content : Str)
  | addImg (o : AddImageOptions)
  | addStyle (o : AddStylesheetOptions)
  | setMeta (p : PartialMetadata)

def applyOp (st : EpubState) : BuildOp → EpubState
  | .addCh o => (addChapter st o).2
  | .setContent chapterId content => (setChapterContent st chapterId content).2
  | .appendContent chapterId content => (appendToChapter st chapterId content).2
  | .addImg o => (addImage st o).2
  | .addStyle o => (addStylesheet st o).2
  | .setMeta p => setMetadata st p

def applyOps (ops : List BuildOp) (st : EpubState) : EpubState :=
  ops.foldl applyOp st

/-- The id `generateChapterId` mints at seed `k`. -/
def chapterIdOf (k : Nat) : Str := S "chapter-" ++ (S "uuid-" ++ natStr k)

/-- The filename `addChapter` mints at counter value `k`. -/
def chapterFileOf (k : Nat) : Str := S "text/chapter-" ++ natStr k ++ S ".xhtml"

theorem chapterIdOf_inj {m n : Nat} (h : chapterIdOf m = chapterIdOf n) : m = n := by
  unfold chapterIdOf at h
  exact natStr_inj _ _ (List.append_cancel_left (List.append_cancel_left h))

theorem chapterFileOf_inj {m n : Nat} (h : chapterFileOf m = chapterFileOf n) : m = n := by
  unfold chapterFileOf at h
  exact affix_natStr_inj (S "text/chapter-") (S ".xhtml") h

/-- The bundle of structural facts the build API maintains: chapter keys and
filenames are the minted ones (bounded by the seed and the counter), every
referenced id is a key, and both the membership union and the filename list
are duplicate-free. -/
structure BuildInv (st : EpubState) : Prop where
  idsIdx : ∀ p ∈ st.chapters, ∃ k, k < st.uuidSeed ∧ p.1 = chapterIdOf k
  fileIdx : ∀ p ∈ st.chapters, ∃ k, k ≤ st.chapterCounter ∧ p.2.filename = chapterFileOf k
  memKeys : ∀ i ∈ memberList st, omHas st.chapters i = true
  memNodup : (memberList st).Nodup
  fileNodup : (st.chapters.map (fun p => p.2.filename)).Nodup

theorem omGet_some_omHas {α} (m : OMap α) (k : Str) (v : α)
    (h : omGet m k = some v) : omHas m k = true := by
  induction m with
  | nil => simp [omGet] at h
  | cons p rest ih =>
    obtain ⟨k0, v0⟩ := p
    by_cases h0 : k0 = k
    · subst h0; simp [omHas]
    · have hb : (k0 == k) = false := by simp [h0]
      simp only [omGet, hb] at h
      simp only [omHas, hb, Bool.false_or]
      exact ih (by simpa using h)

theorem omHas_exists_mem {α} (m : OMap α) (k : Str) (h : omHas m k = true) :
    ∃ v, (k, v) ∈ m := by
  induction m with
  | nil => simp [omHas] at h
  | cons p rest ih =>
    obtain ⟨k0, v0⟩ := p
    by_cases h0 : k0 = k
    · subst h0; exact ⟨v0, by simp⟩
    · have hb : (k0 == k) = false := by simp [h0]
      simp only [omHas, hb, Bool.false_or] at h
      obtain ⟨v, hv⟩ := ih h
      exact ⟨v, by simp [hv]⟩

theorem buildInv_fresh_id (st : EpubState) (inv : BuildInv st) :
    omHas st.chapters (chapterIdOf st.uuidSeed) = false := by
  by_contra hcontra
  have h' : omHas st.chapters (chapterIdOf st.uuidSeed) = true := by
    simpa using hcontra
  obtain ⟨v, hv⟩ := omHas_exists_mem _ _ h'
  obtain ⟨k, hk, he⟩ := inv.idsIdx _ hv
  have : st.uuidSeed = k := chapterIdOf_inj he
  omega

theorem buildInv_fresh_not_mem (st : EpubState) (inv : BuildInv st) :
    chapterIdOf st.uuidSeed ∉ memberList st := fun hm =>
  absurd (inv.memKeys _ hm) (by simp [buildInv_fresh_id st inv])

end Epub

namespace Epub

theorem buildInv_of_root_add (st st' : EpubState) (ch : Chapter)
    (inv : BuildInv st)
    (hch : st'.chapters = omSet st.chapters (chapterIdOf st.uuidSeed) ch)
    (hroots : st'.rootChapterIds = st.rootChapterIds ++ [chapterIdOf st.uuidSeed])
    (hcount : st'.chapterCounter = st.chapterCounter + 1)
    (hseed : st'.uuidSeed = st.uuidSeed + 1)
    (hchildren : ch.children = [])
    (hfile : ch.filename = chapterFileOf (st.chapterCounter + 1)) :
    BuildInv st' := by
  have hfresh := buildInv_fresh_id st inv
  have hnm := buildInv_fresh_not_mem st inv
  have happ : st'.chapters = st.chapters ++ [(chapterIdOf st.uuidSeed, ch)] := by
    rw [hch, omSet_append_fresh _ _ _ hfresh]
  have hmem : memberList st' =
      st.rootChapterIds ++ chapterIdOf st.uuidSeed ::
        (st.chapters.map (fun p => p.2.children)).flatten := by
    simp [memberList, happ, hroots, hchildren]
  have hperm : List.Perm (memberList st') (chapterIdOf st.uuidSeed :: memberList st) := by
    rw [hmem]
    exact @List.perm_middle _ (chapterIdOf st.uuidSeed) st.rootChapterIds
      ((st.chapters.map (fun p => p.2.children)).flatten)
  constructor
  · intro q hq
    rw [happ] at hq
    rcases List.mem_append.mp hq with h | h
    · obtain ⟨k, hk, he⟩ := inv.idsIdx q h
      exact ⟨k, by omega, he⟩
    · have hq' : q = (chapterIdOf st.uuidSeed, ch) := by simpa using h
      exact ⟨st.uuidSeed, by omega, by rw [hq']⟩
  · intro q hq
    rw [happ] at hq
    rcases List.mem_append.mp hq with h | h
    · obtain ⟨k, hk, he⟩ := inv.fileIdx q h
      exact ⟨k, by omega, he⟩
    · have hq' : q = (chapterIdOf st.uuidSeed, ch) := by simpa using h
      exact ⟨st.chapterCounter + 1, by omega, by rw [hq']; exact hfile⟩
  · intro i hi
    have hi' := hperm.mem_iff.mp hi
    rw [hch, omHas_omSet]
    rcases List.mem_cons.mp hi' with h | h
    · simp [h]
    · simp [inv.memKeys i h]
  · exact hperm.nodup_iff.mpr (List.nodup_cons.mpr ⟨hnm, inv.memNodup⟩)
  · have hfiles : st'.chapters.map (fun p => p.2.filename) =
        (st.chapters.map (fun p => p.2.filename))
          ++ chapterFileOf (st.chapterCounter + 1) :: [] := by
      simp [happ, hfile]
    rw [hfiles]
    have hp2 := @List.perm_middle _ (chapterFileOf (st.chapterCounter + 1))
      (st.chapters.map (fun p => p.2.filename)) ([] : List Str)
    refine hp2.nodup_iff.mpr ?_
    refine List.nodup_cons.mpr ⟨?_, by simpa using inv.fileNodup⟩
    intro hmem2
    rw [List.append_nil] at hmem2
    obtain ⟨q, hq, he⟩ := List.mem_map.mp hmem2
    obtain ⟨k, hk, hf⟩ := inv.fileIdx q hq
    rw [hf] at he
    have := chapterFileOf_inj he
    omega

end Epub

namespace Epub

theorem buildInv_of_child_add (st st' : EpubState) (ch parent parent' : Chapter)
    (p : Str) (inv : BuildInv st)
    (hparent : omGet st.chapters p = some parent)
    (hpc : parent'.children = parent.children ++ [chapterIdOf st.uuidSeed])
    (hpf : parent'.filename = parent.filename)
    (hch : st'.chapters = omSet (omSet st.chapters p parent') (chapterIdOf st.uuidSeed) ch)
    (hroots : st'.rootChapterIds = st.rootChapterIds)
    (hcount : st'.chapterCounter = st.chapterCounter + 1)
    (hseed : st'.uuidSeed = st.uuidSeed + 1)
    (hchildren : ch.children = [])
    (hfile : ch.filename = chapterFileOf (st.chapterCounter + 1)) :
    BuildInv st' := by
  have hfresh := buildInv_fresh_id st inv
  have hnm := buildInv_fresh_not_mem st inv
  have hpkey : omHas st.chapters p = true := omGet_some_omHas _ _ _ hparent
  have hpne : p ≠ chapterIdOf st.uuidSeed := by
    intro he
    rw [he, hfresh] at hpkey
    cases hpkey
  obtain ⟨m1, m2, hm, hset, hm1ne⟩ := omSet_decomp st.chapters p parent hparent parent'
  have hfresh2 : omHas (omSet st.chapters p parent') (chapterIdOf st.uuidSeed) = false := by
    rw [omHas_omSet]
    simp [hfresh, hpne]
  have happ : st'.chapters =
      (m1 ++ (p, parent') :: m2) ++ [(chapterIdOf st.uuidSeed, ch)] := by
    rw [hch, omSet_append_fresh _ _ _ hfresh2, hset]
  have hml_old : memberList st =
      (st.rootChapterIds ++ (m1.map (fun q => q.2.children)).flatten ++ parent.children)
        ++ (m2.map (fun q => q.2.children)).flatten := by
    simp [memberList, hm]
  have hml_new : memberList st' =
      (st.rootChapterIds ++ (m1.map (fun q => q.2.children)).flatten ++ parent.children)
        ++ chapterIdOf st.uuidSeed :: (m2.map (fun q => q.2.children)).flatten := by
    simp [memberList, happ, hroots, hpc, hchildren]
  have hperm : List.Perm (memberList st') (chapterIdOf st.uuidSeed :: memberList st) := by
    rw [hml_new, hml_old]
    exact @List.perm_middle _ _ _ _
  constructor
  · intro q hq
    rw [happ] at hq
    rcases List.mem_append.mp hq with h | h
    · rcases List.mem_append.mp h with h1 | h1
      · obtain ⟨k, hk, he⟩ := inv.idsIdx q (by rw [hm]; exact List.mem_append.mpr (.inl h1))
        exact ⟨k, by omega, he⟩
      · rcases List.mem_cons.mp h1 with h2 | h2
        · obtain ⟨k, hk, he⟩ := inv.idsIdx (p, parent)
            (by rw [hm]; exact List.mem_append.mpr (.inr (List.mem_cons_self _ _)))
          exact ⟨k, by omega, by rw [h2]; exact he⟩
        · obtain ⟨k, hk, he⟩ := inv.idsIdx q
            (by rw [hm]; exact List.mem_append.mpr (.inr (List.mem_cons_of_mem _ h2)))
          exact ⟨k, by omega, he⟩
    · have hq' : q = (chapterIdOf st.uuidSeed, ch) := by simpa using h
      exact ⟨st.uuidSeed, by omega, by rw [hq']⟩
  · intro q hq
    rw [happ] at hq
    rcases List.mem_append.mp hq with h | h
    · rcases List.mem_append.mp h with h1 | h1
      · obtain ⟨k, hk, he⟩ := inv.fileIdx q (by rw [hm]; exact List.mem_append.mpr (.inl h1))
        exact ⟨k, by omega, he⟩
      · rcases List.mem_cons.mp h1 with h2 | h2
        · obtain ⟨k, hk, he⟩ := inv.fileIdx (p, parent)
            (by rw [hm]; exact List.mem_append.mpr (.inr (List.mem_cons_self _ _)))
          refine ⟨k, by omega, ?_⟩
          rw [h2]
          show parent'.filename = chapterFileOf k
          rw [hpf]
          exact he
        · obtain ⟨k, hk, he⟩ := inv.fileIdx q
            (by rw [hm]; exact List.mem_append.mpr (.inr (List.mem_cons_of_mem _ h2)))
          exact ⟨k, by omega, he⟩
    · have hq' : q = (chapterIdOf st.uuidSeed, ch) := by simpa using h
      exact ⟨st.chapterCounter + 1, by omega, by rw [hq']; exact hfile⟩
  · intro i hi
    have hi' := hperm.mem_iff.mp hi
    rw [hch, omHas_omSet, omHas_omSet]
    rcases List.mem_cons.mp hi' with h | h
    · simp [h]
    · simp [inv.memKeys i h]
  · exact hperm.nodup_iff.mpr (List.nodup_cons.mpr ⟨hnm, inv.memNodup⟩)
  · have hfiles_old : st.chapters.map (fun q => q.2.filename) =
        (m1.map (fun q => q.2.filename)) ++ parent.filename :: (m2.map (fun q => q.2.filename)) := by
      rw [hm]; simp
    have hfiles_new : st'.chapters.map (fun q => q.2.filename) =
        ((m1.map (fun q => q.2.filename)) ++ parent.filename :: (m2.map (fun q => q.2.filename)))
          ++ chapterFileOf (st.chapterCounter + 1) :: [] := by
      rw [happ]; simp [hpf, hfile]
    rw [hfiles_new, ← hfiles_old]
    have hp2 := @List.perm_middle _ (chapterFileOf (st.chapterCounter + 1))
      (st.chapters.map (fun q => q.2.filename)) ([] : List Str)
    refine hp2.nodup_iff.mpr ?_
    refine List.nodup_cons.mpr ⟨?_, by simpa using inv.fileNodup⟩
    intro hmem2
    rw [List.append_nil] at hmem2
    obtain ⟨q, hq, he⟩ := List.mem_map.mp hmem2
    obtain ⟨k, hk, hf⟩ := inv.fileIdx q hq
    rw [hf] at he
    have := chapterFileOf_inj he
    omega

end Epub

namespace Epub

theorem buildInv_of_value_update (st st' : EpubState) (cid : Str) (c c' : Chapter)
    (inv : BuildInv st) (hc : omGet st.chapters cid = some c)
    (hch : st'.chapters = omSet st.chapters cid c')
    (hcc : c'.children = c.children) (hcf : c'.filename = c.filename)
    (hroots : st'.rootChapterIds = st.rootChapterIds)
    (hcount : st'.chapterCounter = st.chapterCounter)
    (hseed : st'.uuidSeed = st.uuidSeed) :
    BuildInv st' := by
  obtain ⟨m1, m2, hm, hset, hm1ne⟩ := omSet_decomp st.chapters cid c hc c'
  have happ : st'.chapters = m1 ++ (cid, c') :: m2 := by rw [hch, hset]
  have hml : memberList st' = memberList st := by
    simp [memberList, happ, hm, hroots, hcc]
  constructor
  · intro q hq
    rw [happ] at hq
    rcases List.mem_append.mp hq with h1 | h1
    · obtain ⟨k, hk, he⟩ := inv.idsIdx q (by rw [hm]; exact List.mem_append.mpr (.inl h1))
      exact ⟨k, by omega, he⟩
    · rcases List.mem_cons.mp h1 with h2 | h2
      · obtain ⟨k, hk, he⟩ := inv.idsIdx (cid, c)
          (by rw [hm]; exact List.mem_append.mpr (.inr (List.mem_cons_self _ _)))
        exact ⟨k, by omega, by rw [h2]; exact he⟩
      · obtain ⟨k, hk, he⟩ := inv.idsIdx q
          (by rw [hm]; exact List.mem_append.mpr (.inr (List.mem_cons_of_mem _ h2)))
        exact ⟨k, by omega, he⟩
  · intro q hq
    rw [happ] at hq
    rcases List.mem_append.mp hq with h1 | h1
    · obtain ⟨k, hk, he⟩ := inv.fileIdx q (by rw [hm]; exact List.mem_append.mpr (.inl h1))
      exact ⟨k, by omega, he⟩
    · rcases List.mem_cons.mp h1 with h2 | h2
      · obtain ⟨k, hk, he⟩ := inv.fileIdx (cid, c)
          (by rw [hm]; exact List.mem_append.mpr (.inr (List.mem_cons_self _ _)))
        refine ⟨k, by omega, ?_⟩
        rw [h2]
        show c'.filename = chapterFileOf k
        rw [hcf]
        exact he
      · obtain ⟨k, hk, he⟩ := inv.fileIdx q
          (by rw [hm]; exact List.mem_append.mpr (.inr (List.mem_cons_of_mem _ h2)))
        exact ⟨k, by omega, he⟩
  · intro i hi
    rw [hml] at hi
    rw [hch, omHas_omSet]
    simp [inv.memKeys i hi]
  · rw [hml]; exact inv.memNodup
  · have hfiles : st'.chapters.map (fun q => q.2.filename) =
        st.chapters.map (fun q => q.2.filename) := by
      rw [happ, hm]; simp [hcf]
    rw [hfiles]; exact inv.fileNodup

theorem buildInv_frame (st st' : EpubState) (inv : BuildInv st)
    (hch : st'.chapters = st.chapters)
    (hroots : st'.rootChapterIds = st.rootChapterIds)
    (hcount : st.chapterCounter ≤ st'.chapterCounter)
    (hseed : st.uuidSeed ≤ st'.uuidSeed) :
    BuildInv st' := by
  have hml : memberList st' = memberList st := by
    simp [memberList, hch, hroots]
  constructor
  · intro q hq
    rw [hch] at hq
    obtain ⟨k, hk, he⟩ := inv.idsIdx q hq
    exact ⟨k, by omega, he⟩
  · intro q hq
    rw [hch] at hq
    obtain ⟨k, hk, he⟩ := inv.fileIdx q hq
    exact ⟨k, by omega, he⟩
  · intro i hi
    rw [hml] at hi
    rw [hch]
    exact inv.memKeys i hi
  · rw [hml]; exact inv.memNodup
  · rw [hch]; exact inv.fileNodup

end Epub

namespace Epub

theorem buildInv_addChapter (st : EpubState) (o : AddChapterOptions)
    (inv : BuildInv st) : BuildInv (addChapter st o).2 := by
  obtain ⟨title, content, pid, hl, lin⟩ := o
  cases pid with
  | none =>
    exact buildInv_of_root_add st _ _ inv rfl rfl rfl rfl rfl rfl
  | some p =>
    by_cases hb : (p == []) = true
    · have heq : addChapter st ⟨title, content, some p, hl, lin⟩
          = addChapter st ⟨title, content, none, hl, lin⟩ := by
        simp [addChapter, hb]
      rw [heq]
      exact buildInv_of_root_add st _ _ inv rfl rfl rfl rfl rfl rfl
    · have hbf : (p == []) = false := by simpa using hb
      cases hg : omGet st.chapters p with
      | none =>
        have heq : (addChapter st ⟨title, content, some p, hl, lin⟩).2
            = { st with uuidSeed := st.uuidSeed + 1, chapterCounter := st.chapterCounter + 1 } := by
          simp [addChapter, generateChapterId, uuidFresh, hbf, hg]
        rw [heq]
        exact buildInv_frame st _ inv rfl rfl (Nat.le_succ _) (Nat.le_succ _)
      | some parent =>
        refine buildInv_of_child_add st ((addChapter st ⟨title, content, some p, hl, lin⟩).2)
          { id := chapterIdOf st.uuidSeed, title := title, content := content.getD []
          , filename := chapterFileOf (st.chapterCounter + 1), parentId := some p
          , order := getNextChapterOrder
              { st with uuidSeed := st.uuidSeed + 1, chapterCounter := st.chapterCounter + 1 }
          , children := [], headingLevel := hl, linear := !(lin == some false) }
          parent
          { parent with children := parent.children ++ [chapterIdOf st.uuidSeed] }
          p inv hg rfl rfl ?_ ?_ ?_ ?_ rfl rfl
        · simp [addChapter, generateChapterId, uuidFresh, hbf, hg, chapterIdOf, chapterFileOf]
        · simp [addChapter, generateChapterId, uuidFresh, hbf, hg]
        · simp [addChapter, generateChapterId, uuidFresh, hbf, hg]
        · simp [addChapter, generateChapterId, uuidFresh, hbf, hg]

end Epub

namespace Epub

theorem buildInv_applyOp (st : EpubState) (op : BuildOp) (inv : BuildInv st) :
    BuildInv (applyOp st op) := by
  cases op with
  | addCh o => exact buildInv_addChapter st o inv
  | setContent cid content =>
    cases hg : omGet st.chapters cid with
    | none =>
      have heq : (setChapterContent st cid content).2 = st := by
        simp [setChapterContent, hg]
      show BuildInv (setChapterContent st cid content).2
      rw [heq]
      exact inv
    | some c =>
      have heq : (setChapterContent st cid content).2
          = { st with chapters := omSet st.chapters cid { c with content := content } } := by
        simp [setChapterContent, hg]
      show BuildInv (setChapterContent st cid content).2
      rw [heq]
      exact buildInv_of_value_update st _ cid c { c with content := content }
        inv hg rfl rfl rfl rfl rfl rfl
  | appendContent cid content =>
    cases hg : omGet st.chapters cid with
    | none =>
      have heq : (appendToChapter st cid content).2 = st := by
        simp [appendToChapter, hg]
      show BuildInv (appendToChapter st cid content).2
      rw [heq]
      exact inv
    | some c =>
      have heq : (appendToChapter st cid content).2
          = { st with chapters := omSet st.chapters cid { c with content := c.content ++ content } } := by
        simp [appendToChapter, hg]
      show BuildInv (appendToChapter st cid content).2
      rw [heq]
      exact buildInv_of_value_update st _ cid c { c with content := c.content ++ content }
        inv hg rfl rfl rfl rfl rfl rfl
  | addImg o =>
    by_cases hv : isValidImageExtension o.filename = true
    · refine buildInv_frame st _ inv ?_ ?_ ?_ ?_ <;>
        simp [applyOp, addImage, generateImageId, uuidFresh, sanitizeFilename, hv]
    · have hvf : isValidImageExtension o.filename = false := by simpa using hv
      refine buildInv_frame st _ inv ?_ ?_ ?_ ?_ <;> simp [applyOp, addImage, hvf]
  | addStyle o =>
    refine buildInv_frame st _ inv ?_ ?_ ?_ ?_ <;>
      simp [applyOp, addStylesheet, generateStylesheetId, uuidFresh, sanitizeFilename]
  | setMeta pm =>
    refine buildInv_frame st _ inv ?_ ?_ ?_ ?_ <;> simp [applyOp, setMetadata]

theorem buildInv_applyOps (ops : List BuildOp) (st : EpubState) (inv : BuildInv st) :
    BuildInv (applyOps ops st) := by
  induction ops generalizing st with
  | nil => exact inv
  | cons op rest ih => exact ih (applyOp st op) (buildInv_applyOp st op inv)

theorem mkBuilder_no_chapters (md : Metadata) (opts : EPUBOptions) (seed : Nat)
    (st : EpubState) (h : mkBuilder md opts seed = .ok st) :
    st.chapters = [] ∧ st.rootChapterIds = [] := by
  unfold mkBuilder at h
  split at h
  · simp at h
  · split at h
    · simp at h
    · simp only [Except.ok.injEq] at h
      subst h
      rcases hmd : md.identifier with _ | i
      · constructor <;> (split <;> simp [hmd, addDefaultStylesheetOp, uuidFresh])
      · by_cases hi : (i == []) = true
        · constructor <;> (split <;> simp [hmd, hi, addDefaultStylesheetOp, uuidFresh])
        · have hif : (i == []) = false := by simpa using hi
          constructor <;> (split <;> simp [hmd, hif, addDefaultStylesheetOp, uuidFresh])

theorem buildInv_mkBuilder (md : Metadata) (opts : EPUBOptions) (seed : Nat)
    (st : EpubState) (h : mkBuilder md opts seed = .ok st) : BuildInv st := by
  obtain ⟨h1, h2⟩ := mkBuilder_no_chapters md opts seed st h
  have hm : memberList st = [] := by simp [memberList, h1, h2]
  constructor
  · intro q hq
    rw [h1] at hq
    cases hq
  · intro q hq
    rw [h1] at hq
    cases hq
  · intro i hi
    rw [hm] at hi
    cases hi
  · rw [hm]
    exact List.nodup_nil
  · rw [h1]
    simp

/-- C6 amended: the membership invariant holds for every publication built
through the constructor and any sequence of non-deleting build operations
(`addChapter`, content updates, resources, metadata): every chapter id
appears at most once across the union of `rootChapterIds` and all `children`
lists.  (The parse path violates it — see the counterexample.) -/
theorem membership_invariant_build (md : Metadata) (opts : EPUBOptions)
    (seed : Nat) (st0 : EpubState) (ops : List BuildOp)
    (h : mkBuilder md opts seed = .ok st0) :
    (memberList (applyOps ops st0)).Nodup :=
  (buildInv_applyOps ops st0 (buildInv_mkBuilder md opts seed st0 h)).memNodup

/-- Witness for C6 at a concrete build: two chapters, one nested. -/
theorem membership_invariant_build_witness :
    (memberList (applyOps
      [BuildOp.addCh { title := S "One" },
       BuildOp.addCh { title := S "Two", parentId := some (S "chapter-uuid-1") }]
      cexBase)).Nodup :=
  membership_invariant_build { title := S "T", creator := S "A" } {} 0 cexBase
    [BuildOp.addCh { title := S "One" },
     BuildOp.addCh { title := S "Two", parentId := some (S "chapter-uuid-1") }]
    (by decide)

/-- C7 amended: the filenames of all chapters are pairwise distinct in every
publication built through the constructor and any sequence of non-deleting
build operations — `addChapter` mints `text/chapter-<counter>.xhtml` from
the strictly increasing counter.  (The fragment parse path violates it —
see the counterexample.) -/
theorem filenames_unique_build_api (md : Metadata) (opts : EPUBOptions)
    (seed : Nat) (st0 : EpubState) (ops : List BuildOp)
    (h : mkBuilder md opts seed = .ok st0) :
    ((applyOps ops st0).chapters.map (fun p => p.2.filename)).Nodup :=
  (buildInv_applyOps ops st0 (buildInv_mkBuilder md opts seed st0 h)).fileNodup

/-- Witness for C7 at a concrete build with two chapters and a content
update. -/
theorem filenames_unique_build_api_witness :
    ((applyOps
      [BuildOp.addCh { title := S "One" },
       BuildOp.addCh { title := S "Two" },
       BuildOp.setContent (S "chapter-uuid-1") (S "<p>new</p>")]
      cexBase).chapters.map (fun p => p.2.filename)).Nodup :=
  filenames_unique_build_api { title := S "T", creator := S "A" } {} 0 cexBase
    [BuildOp.addCh { title := S "One" },
     BuildOp.addCh { title := S "Two" },
     BuildOp.setContent (S "chapter-uuid-1") (S "<p>new</p>")]
    (by decide)

end Epub
